import Mathlib

/-!
Verification development for the pokemon-api repository's collection store
(`src/lib/store/pokedeck.ts` / `src/unnamed/part_003`, class `PokedeckStore`)
and query engine (`src/unnamed/part_004`, `filterPokemon`).

The TypeScript code is shallowly embedded:
* JSON values (the results of `JSON.parse` and the arguments of
  `JSON.stringify`) are an inductive `Json` type; JSON numbers are modelled
  as rationals.
* The JavaScript `Map` backing the store is an association list in insertion
  order, with `Map.set` replacing in place and `Map.delete` removing.
* `Array.prototype.sort(cmp)` (stable since ES2019) is modelled by a stable
  insertion sort `jsSort` driven by an integer comparator.
* Strings are manipulated through their character lists so that all
  operations compute by kernel reduction; `toLowerCase`, `trim`,
  `includes` and decimal rendering of numbers are defined below.
* `Date` handling: `new Date(s).getTime()` is an uninterpreted parameter
  `parseDate : String → Int` threaded through the definitions that sort by
  `dateAdded`; `new Date().toISOString()` is a `now : String` parameter.
* The singleton's listeners (`Set` of callbacks) are a list of functions
  `List PokedeckEntry → Except String String`; `Except.error` models a
  listener that throws, `Except.ok o` a listener that returns after
  producing the observable output `o`.
-/

set_option maxRecDepth 100000

/-- A JSON value, as produced by `JSON.parse`. Numbers are rationals
(`JSON` numbers are IEEE doubles; every number appearing in this
development is exactly representable). Object fields are kept in order;
lookup takes the last binding, as `JSON.parse` does for duplicate keys. -/
inductive Json where
  | null : Json
  | bool : Bool → Json
  | num : ℚ → Json
  | str : String → Json
  | arr : List Json → Json
  | obj : List (String × Json) → Json

/-- Last-binding-wins field lookup on an association list, matching the
object produced by `JSON.parse` for repeated keys. -/
def lookupLast (key : String) : List (String × Json) → Option Json
  | [] => none
  | (k, v) :: rest =>
    match lookupLast key rest with
    | some r => some r
    | none => if k = key then some v else none

/-- JavaScript property access `doc[key]`: defined on objects, `undefined`
(here `none`) on every other value. (On `null` the code would throw a
`TypeError`, which `import`'s `try/catch` maps to the same outcome as an
absent field.) -/
def jsonField (j : Json) (key : String) : Option Json :=
  match j with
  | .obj fields => lookupLast key fields
  | _ => none

/-! ### Character-level string primitives

The JavaScript string operations used by the code, defined over `List Char`
so that everything reduces in the kernel. -/

/-- `String.prototype.toLowerCase` on the characters of a string (the code
only ever lowercases ASCII names, type tags and queries). -/
def lowerStr (s : String) : String :=
  ⟨s.data.map Char.toLower⟩

/-- Leading-whitespace removal, for `String.prototype.trim`. -/
def dropLeadingWs (l : List Char) : List Char :=
  match l with
  | [] => []
  | c :: rest => if c.isWhitespace then dropLeadingWs rest else c :: rest

/-- `String.prototype.trim`. -/
def trimStr (s : String) : String :=
  ⟨(dropLeadingWs (dropLeadingWs s.data.reverse).reverse)⟩

/-- Is `pat` a contiguous run inside `l`?  Backs `String.prototype.includes`. -/
def listContains (pat : List Char) : List Char → Bool
  | [] => pat.isEmpty
  | c :: rest => pat.isPrefixOf (c :: rest) || listContains pat rest

/-- `a.includes(b)`. -/
def strIncludes (a b : String) : Bool :=
  listContains b.data a.data

/-- The decimal digit character for `d < 10`. -/
def digitChar (d : Nat) : Char :=
  Char.ofNat (48 + d)

/-- Decimal digits of a natural number, most significant first; fuel-based
so that it reduces in the kernel. -/
def natDigitsAux : Nat → Nat → List Char
  | 0, _ => []
  | fuel + 1, n =>
    if n < 10 then [digitChar n]
    else natDigitsAux fuel (n / 10) ++ [digitChar (n % 10)]

/-- `String(n)` for a natural number. -/
def natToStr (n : Nat) : String :=
  ⟨natDigitsAux (n + 1) n⟩

/-- `String(i)` / `Number.prototype.toString` for an integer. -/
def intToStr (i : Int) : String :=
  if i < 0 then ⟨'-' :: (natToStr i.natAbs).data⟩ else natToStr i.natAbs

/-- Model of `String.prototype.localeCompare` restricted to the data the
code compares (lower-case ASCII names): plain lexicographic comparison on
character codes, returning `-1`, `0` or `1`. -/
def lexCmp : List Char → List Char → Int
  | [], [] => 0
  | [], _ :: _ => -1
  | _ :: _, [] => 1
  | a :: as, b :: bs =>
    if a.toNat < b.toNat then -1
    else if b.toNat < a.toNat then 1
    else lexCmp as bs

/-! ### Stable sort (`Array.prototype.sort`)

`jsSort c l` models `l.sort(c)` for an integer comparator `c`: a stable
insertion sort, processing the array left to right and inserting each
element after every already-placed element that does not compare strictly
greater. -/

/-- Insert `a` before the first element `b` with `c a b < 0`. -/
def insertC {α : Type} (c : α → α → Int) (a : α) : List α → List α
  | [] => [a]
  | b :: l => if c a b < 0 then a :: b :: l else b :: insertC c a l

/-- Tail of the insertion sort: fold the remaining elements into the sorted
accumulator. -/
def jsSortAux {α : Type} (c : α → α → Int) : List α → List α → List α
  | acc, [] => acc
  | acc, a :: rest => jsSortAux c (insertC c a acc) rest

/-- `l.sort(c)` — stable, as required of `Array.prototype.sort` since
ES2019. -/
def jsSort {α : Type} (c : α → α → Int) (l : List α) : List α :=
  jsSortAux c [] l

theorem insertC_perm {α : Type} (c : α → α → Int) (a : α) (l : List α) :
    List.Perm (insertC c a l) (a :: l) := by
  induction l with
  | nil => simp [insertC]
  | cons b t ih =>
    by_cases h : c a b < 0
    · simp [insertC, h]
    · simp only [insertC, h, if_false]
      exact (List.Perm.cons b ih).trans (List.Perm.swap a b t)

theorem jsSortAux_perm {α : Type} (c : α → α → Int) (l acc : List α) :
    List.Perm (jsSortAux c acc l) (acc ++ l) := by
  induction l generalizing acc with
  | nil => simp [jsSortAux]
  | cons a rest ih =>
    have h1 : List.Perm (jsSortAux c (insertC c a acc) rest) ((insertC c a acc) ++ rest) :=
      ih _
    have h2 : List.Perm ((insertC c a acc) ++ rest) ((a :: acc) ++ rest) :=
      (insertC_perm c a acc).append_right rest
    have h3 : List.Perm ((a :: acc) ++ rest) (acc ++ a :: rest) :=
      List.perm_middle.symm
    exact (h1.trans h2).trans h3

theorem jsSort_perm {α : Type} (c : α → α → Int) (l : List α) :
    List.Perm (jsSort c l) l :=
  jsSortAux_perm c l []

theorem mem_insertC {α : Type} (c : α → α → Int) {a y : α} {l : List α} :
    y ∈ insertC c a l ↔ y = a ∨ y ∈ l := by
  rw [(insertC_perm c a l).mem_iff, List.mem_cons]

/-- A comparator is tie-symmetric when `c a b = 0` forces `c b a = 0`;
a consequence of antisymmetry used below. -/
theorem comparator_zero_symm {α : Type} (c : α → α → Int)
    (hanti : ∀ a b, c a b < 0 ↔ 0 < c b a) {a b : α} (h : c a b = 0) :
    c b a = 0 := by
  have h1 := hanti a b
  have h2 := hanti b a
  omega

theorem insertC_sorted {α : Type} (c : α → α → Int)
    (hanti : ∀ a b, c a b < 0 ↔ 0 < c b a)
    (htrans : ∀ a b d, c a b ≤ 0 → c b d ≤ 0 → c a d ≤ 0)
    (a : α) {l : List α} (hl : l.Pairwise (fun x y => c x y ≤ 0)) :
    (insertC c a l).Pairwise (fun x y => c x y ≤ 0) := by
  induction l with
  | nil => simp [insertC]
  | cons b t ih =>
    rw [List.pairwise_cons] at hl
    obtain ⟨hb, ht⟩ := hl
    by_cases hab : c a b < 0
    · simp only [insertC, if_pos hab]
      rw [List.pairwise_cons]
      refine ⟨?_, by rw [List.pairwise_cons]; exact ⟨hb, ht⟩⟩
      intro y hy
      rcases List.mem_cons.mp hy with rfl | hyt
      · omega
      · exact htrans a b y (by omega) (hb y hyt)
    · simp only [insertC, if_neg hab]
      rw [List.pairwise_cons]
      refine ⟨?_, ih ht⟩
      intro y hy
      rcases (mem_insertC c).mp hy with rfl | hyt
      · have h1 := hanti y b
        have h2 := hanti b y
        omega
      · exact hb y hyt

theorem insertC_filter {α : Type} (c : α → α → Int)
    (hanti : ∀ a b, c a b < 0 ↔ 0 < c b a)
    (htrans : ∀ a b d, c a b ≤ 0 → c b d ≤ 0 → c a d ≤ 0)
    (q : α → Bool) (htie : ∀ a b, q a = true → q b = true → c a b = 0)
    (a : α) {l : List α} (hl : l.Pairwise (fun x y => c x y ≤ 0)) :
    (insertC c a l).filter q = l.filter q ++ (if q a then [a] else []) := by
  induction l with
  | nil => by_cases hqa : q a <;> simp [insertC, hqa]
  | cons b t ih =>
    rw [List.pairwise_cons] at hl
    obtain ⟨hb, ht⟩ := hl
    by_cases hab : c a b < 0
    · simp only [insertC, if_pos hab]
      by_cases hqa : q a
      · have hempty : (b :: t).filter q = [] := by
          rw [List.filter_eq_nil_iff]
          intro y hy hqy
          have hay : c a y = 0 := htie a y hqa hqy
          rcases List.mem_cons.mp hy with rfl | hyt
          · omega
          · have hya : c y a = 0 := comparator_zero_symm c hanti hay
            have hba : c b a ≤ 0 := htrans b y a (hb y hyt) (le_of_eq hya)
            have := hanti a b
            omega
        rw [List.filter_cons_of_pos hqa, hempty]
        simp [hqa]
      · rw [List.filter_cons_of_neg (by simpa using hqa)]
        simp [hqa]
    · simp only [insertC, if_neg hab]
      by_cases hqb : q b
      · rw [List.filter_cons_of_pos hqb, List.filter_cons_of_pos hqb, ih ht,
          List.cons_append]
      · rw [List.filter_cons_of_neg (by simpa using hqb),
          List.filter_cons_of_neg (by simpa using hqb), ih ht]

theorem jsSortAux_filter {α : Type} (c : α → α → Int)
    (hanti : ∀ a b, c a b < 0 ↔ 0 < c b a)
    (htrans : ∀ a b d, c a b ≤ 0 → c b d ≤ 0 → c a d ≤ 0)
    (q : α → Bool) (htie : ∀ a b, q a = true → q b = true → c a b = 0)
    (l : List α) :
    ∀ {acc : List α}, acc.Pairwise (fun x y => c x y ≤ 0) →
      (jsSortAux c acc l).filter q = acc.filter q ++ l.filter q := by
  induction l with
  | nil => intro acc _; simp [jsSortAux]
  | cons a rest ih =>
    intro acc hacc
    show (jsSortAux c (insertC c a acc) rest).filter q = _
    rw [ih (insertC_sorted c hanti htrans a hacc),
      insertC_filter c hanti htrans q htie a hacc]
    by_cases hqa : q a
    · rw [List.filter_cons_of_pos hqa]
      simp [hqa]
    · rw [List.filter_cons_of_neg (by simpa using hqa)]
      simp [hqa]

/-- Stability of the model of `Array.prototype.sort`: for a comparator that
is antisymmetric and transitive, the elements of any tie class `q` (a set of
elements that mutually compare to `0`) appear in the sorted output exactly
in their input order. -/
theorem jsSort_stable {α : Type} (c : α → α → Int)
    (hanti : ∀ a b, c a b < 0 ↔ 0 < c b a)
    (htrans : ∀ a b d, c a b ≤ 0 → c b d ≤ 0 → c a d ≤ 0)
    (q : α → Bool) (htie : ∀ a b, q a = true → q b = true → c a b = 0)
    (l : List α) : (jsSort c l).filter q = l.filter q := by
  have := @jsSortAux_filter α c hanti htrans q htie l [] (by simp)
  simpa [jsSort] using this

/-! ### The collection store (`PokedeckStore`, src/unnamed/part_003)

`PokedeckEntry` is the persisted projection (`src/lib/types/pokemon.ts`):
`{ id: number; name: string; dateAdded: string; sprite: string;
types: string[] }`.  The `types` field is kept as raw JSON values because
`import` stores whatever array the document carried, without converting
its elements. -/

structure PokedeckEntry where
  id : ℚ
  name : String
  sprite : String
  types : List Json
  dateAdded : String

/-- The argument of `PokedeckStore.add` / `addMultiple`:
`{ id: number; name: string; sprite: string; types: string[] }`. -/
structure AddInput where
  id : ℚ
  name : String
  sprite : String
  types : List String

/-- `this.pokedeck : Map<number, PokedeckEntry>`, as an association list in
insertion order. -/
abbrev Store : Type := List (ℚ × PokedeckEntry)

/-- `Map.prototype.has`. -/
def mapHas (m : Store) (k : ℚ) : Bool :=
  m.any (fun p => p.1 == k)

/-- `Map.prototype.get` (`|| null` in `PokedeckStore.get`). -/
def mapGet (m : Store) (k : ℚ) : Option PokedeckEntry :=
  match m with
  | [] => none
  | (k', v) :: rest => if k' == k then some v else mapGet rest k

/-- `Map.prototype.set`: replaces in place if the key is present, appends
otherwise (JavaScript `Map`s preserve insertion order). -/
def mapSet (m : Store) (k : ℚ) (v : PokedeckEntry) : Store :=
  if mapHas m k then
    m.map (fun p => if p.1 == k then (k, v) else p)
  else
    m ++ [(k, v)]

/-- `Map.prototype.delete` (the store discards the returned flag and asks
`has` first). -/
def mapDelete (m : Store) (k : ℚ) : Store :=
  m.filter (fun p => !(p.1 == k))

/-- `Map.prototype.size`. -/
def mapSize (m : Store) : Nat :=
  m.length

/-- `Array.from(map.values())`. -/
def mapValues (m : Store) : List PokedeckEntry :=
  m.map Prod.snd

/-- `MAX_POKEDECK_SIZE`. -/
def MAX_POKEDECK_SIZE : Nat := 50

/-- The comparator of `getAll`:
`(a, b) => new Date(b.dateAdded).getTime() - new Date(a.dateAdded).getTime()`. -/
def dateDescCmp (parseDate : String → Int) (a b : PokedeckEntry) : Int :=
  parseDate b.dateAdded - parseDate a.dateAdded

/-- `PokedeckStore.getAll`: all entries, sorted most recently added first. -/
def getAll (parseDate : String → Int) (s : Store) : List PokedeckEntry :=
  jsSort (dateDescCmp parseDate) (mapValues s)

/-- `PokedeckStore.add`.  Throwing (`Pokedeck is full!`) is `Except.error`;
`dateAdded` is assigned from the ambient clock `now`.  The persistence
write of `saveToStorage` is outside the in-memory model; its listener
notification is modelled separately by `addNotify` below. -/
def add (s : Store) (p : AddInput) (now : String) :
    Except String (Bool × Store) :=
  if mapSize s ≥ MAX_POKEDECK_SIZE ∧ ¬(mapHas s p.id = true) then
    Except.error ("Pokedeck is full! Maximum " ++ natToStr MAX_POKEDECK_SIZE
      ++ " Pokemon allowed.")
  else if mapHas s p.id then
    Except.ok (false, s)
  else
    Except.ok (true,
      mapSet s p.id
        { id := p.id, name := p.name, sprite := p.sprite,
          types := p.types.map Json.str, dateAdded := now })

/-- `PokedeckStore.remove`. -/
def remove (s : Store) (pokemonId : ℚ) : Bool × Store :=
  let existed := mapHas s pokemonId
  (existed, mapDelete s pokemonId)

/-- `PokedeckStore.clear`. -/
def clear (_s : Store) : Store := []

/-- Per-item outcome record of `addMultiple`. -/
structure BulkAddResult where
  added : Nat
  skipped : Nat
  errors : List String

/-- One iteration of `addMultiple`'s `batch.forEach(p => ...)` body.  (The
code walks the input in slices of `batchSize = 10`, but the slices are
consecutive and processed in order, so the visiting order over the whole
array is the plain list order.) -/
def addMultipleStep (st : BulkAddResult × Store) (p : AddInput) (now : String) :
    BulkAddResult × Store :=
  let (results, s) := st
  if mapHas s p.id then
    ({ results with skipped := results.skipped + 1 }, s)
  else if mapSize s ≥ MAX_POKEDECK_SIZE then
    ({ results with
        errors := results.errors ++ ["Pokedeck full, cannot add " ++ p.name] }, s)
  else
    ({ results with added := results.added + 1 },
      mapSet s p.id
        { id := p.id, name := p.name, sprite := p.sprite,
          types := p.types.map Json.str, dateAdded := now })

/-- `PokedeckStore.addMultiple`. -/
def addMultiple (s : Store) (pokemon : List AddInput) (now : String) :
    BulkAddResult × Store :=
  pokemon.foldl (fun st p => addMultipleStep st p now) (⟨0, 0, []⟩, s)

/-- `PokedeckStore.removeMultiple`. -/
def removeMultiple (s : Store) (pokemonIds : List ℚ) :
    (Nat × Nat) × Store :=
  pokemonIds.foldl
    (fun st id =>
      let ((removed, notFound), s) := st
      if mapHas s id then ((removed + 1, notFound), mapDelete s id)
      else ((removed, notFound + 1), s))
    ((0, 0), s)

/-! ### Statistics (`PokedeckStore.getStats`)

The stats cache (`statsCache`, 5 s TTL) is a pure performance device: it is
invalidated on every mutation, and between mutations the computation below
is deterministic, so the cached value always equals the recomputed one.
The model is therefore the uncached computation. -/

mutual
/-- Structural equality of JSON values, modelling `Set`'s SameValueZero
identity on the (primitive) values the store ever puts in a `Set`. -/
def jsonBeq : Json → Json → Bool
  | .null, .null => true
  | .bool a, .bool b => a == b
  | .num a, .num b => a == b
  | .str a, .str b => a == b
  | .arr a, .arr b => jsonBeqList a b
  | .obj a, .obj b => jsonBeqFields a b
  | _, _ => false
def jsonBeqList : List Json → List Json → Bool
  | [], [] => true
  | x :: xs, y :: ys => jsonBeq x y && jsonBeqList xs ys
  | _, _ => false
def jsonBeqFields : List (String × Json) → List (String × Json) → Bool
  | [], [] => true
  | (k1, v1) :: xs, (k2, v2) :: ys => k1 == k2 && jsonBeq v1 v2 && jsonBeqFields xs ys
  | _, _ => false
end

/-- `String(q)` for a JSON number.  Integers render as in JavaScript; the
repository's own data only ever uses integral numbers here, so the
non-integral branch (rendered `num/den`) is a formal totaliser, not a
behaviour the code exercises. -/
def ratToStr (q : ℚ) : String :=
  if q.den = 1 then intToStr q.num
  else intToStr q.num ++ "/" ++ natToStr q.den

mutual
/-- `String(v)` — the coercion JavaScript applies to a value used as a
`Record<string, number>` key (`typeBreakdown[type]`).  The store's own
entries always carry string type tags, for which this is the identity. -/
def jsKeyString : Json → String
  | .null => "null"
  | .bool b => if b then "true" else "false"
  | .num q => ratToStr q
  | .str s => s
  | .arr l => joinKeys l
  | .obj _ => "[object Object]"
def joinKeys : List Json → String
  | [] => ""
  | [x] => keyElem x
  | x :: xs => keyElem x ++ "," ++ joinKeys xs
def keyElem : Json → String
  | .null => ""
  | .bool b => if b then "true" else "false"
  | .num q => ratToStr q
  | .str s => s
  | .arr l => joinKeys l
  | .obj _ => "[object Object]"
end

/-- `typeBreakdown[type] = (typeBreakdown[type] || 0) + 1`, on an ordered
record (string keys in first-insertion order, as JavaScript keeps
non-index keys). -/
def recordIncr (r : List (String × Nat)) (k : String) : List (String × Nat) :=
  if r.any (fun p => p.1 == k) then
    r.map (fun p => if p.1 == k then (p.1, p.2 + 1) else p)
  else
    r ++ [(k, 1)]

/-- `typeSet.add(type)` on the model of a `Set`. -/
def setInsert (s : List Json) (j : Json) : List Json :=
  if s.any (fun x => jsonBeq x j) then s else s ++ [j]

/-- The `stats` record assembled by `getStats`. -/
structure Stats where
  total : Nat
  typeBreakdown : List (String × Nat)
  oldestEntry : Option PokedeckEntry
  newestEntry : Option PokedeckEntry
  averagePerType : ℚ
  mostCommonType : Option String
  rarest : Option PokedeckEntry

/-- `PokedeckStore.getStats` (uncached computation; see the section
comment). -/
def getStats (parseDate : String → Int) (s : Store) : Stats :=
  let entries := getAll parseDate s
  let typeBreakdown := entries.foldl
    (fun r e => e.types.foldl (fun r t => recordIncr r (jsKeyString t)) r) []
  let typeSet := entries.foldl (fun st e => e.types.foldl setInsert st) []
  let sortedByDate :=
    jsSort (fun a b => parseDate a.dateAdded - parseDate b.dateAdded) entries
  let mostCommonType := (typeBreakdown.foldl
    (fun (best : Option String × Nat) p =>
      if p.2 > best.2 then (some p.1, p.2) else best) (none, 0)).1
  let rarest := entries.foldl
    (fun rare e =>
      match rare with
      | none => some e
      | some r => if e.id < r.id then some e else some r) none
  { total := entries.length
    typeBreakdown := typeBreakdown
    oldestEntry := sortedByDate.head?
    newestEntry := sortedByDate.getLast?
    averagePerType :=
      if typeSet.length > 0 then (entries.length : ℚ) / (typeSet.length : ℚ) else 0
    mostCommonType := mostCommonType
    rarest := rarest }

/-! ### Export (`export`, `exportAsync`) -/

/-- The export document `{ version, exportDate, entries, stats }` (the
value `JSON.stringify` receives). -/
structure ExportDoc where
  version : String
  exportDate : String
  entries : List PokedeckEntry
  stats : Stats

/-- `PokedeckStore.export`. -/
def exportDoc (parseDate : String → Int) (s : Store) (now : String) : ExportDoc :=
  { version := "1.0", exportDate := now,
    entries := getAll parseDate s, stats := getStats parseDate s }

/-- One run of `exportAsync`'s `processEntries` loop from a given
`processed` counter: the batched progress values reported to the callback
(batch size 50), and the document the promise finally resolves with.
`entries` is the list captured when the promise body started; `stats` is
`this.getStats()` evaluated at completion. -/
def processEntriesLoop (entries : List PokedeckEntry) (stats : Stats)
    (now : String) (processed : Nat) : List ℚ × ExportDoc :=
  let total := entries.length
  let endIndex := min (processed + 50) total
  let prog := (List.range' (processed + 1) (endIndex - processed)).map
    (fun p => (p : ℚ) / (total : ℚ) * 100)
  if h : endIndex < total then
    let rest := processEntriesLoop entries stats now endIndex
    (prog ++ rest.1, rest.2)
  else
    (prog, { version := "1.0", exportDate := now, entries := entries, stats := stats })
termination_by entries.length - processed
decreasing_by simp only [endIndex, total] at *; omega

/-- `PokedeckStore.exportAsync` on a quiescent store: the progress values
and the resolved document. -/
def exportAsyncRun (parseDate : String → Int) (s : Store) (now : String) :
    List ℚ × ExportDoc :=
  processEntriesLoop (getAll parseDate s) (getStats parseDate s) now 0

/-- The JSON value of a stored entry inside the export document (the
object spread `{...pokemon, dateAdded}` lays the fields out in this
order). -/
def entryToJson (e : PokedeckEntry) : Json :=
  Json.obj [("id", Json.num e.id), ("name", Json.str e.name),
    ("sprite", Json.str e.sprite), ("types", Json.arr e.types),
    ("dateAdded", Json.str e.dateAdded)]

/-- The JSON value of the stats record. -/
def statsToJson (st : Stats) : Json :=
  Json.obj [("total", Json.num st.total),
    ("typeBreakdown", Json.obj (st.typeBreakdown.map (fun p => (p.1, Json.num p.2)))),
    ("oldestEntry", (st.oldestEntry.map entryToJson).getD Json.null),
    ("newestEntry", (st.newestEntry.map entryToJson).getD Json.null),
    ("averagePerType", Json.num st.averagePerType),
    ("mostCommonType", (st.mostCommonType.map Json.str).getD Json.null),
    ("rarest", (st.rarest.map entryToJson).getD Json.null)]

/-- The export document as a JSON value: what `JSON.parse(this.export())`
yields (stringify-then-parse is the identity on these values). -/
def exportJson (parseDate : String → Int) (s : Store) (now : String) : Json :=
  Json.obj [("version", Json.str "1.0"), ("exportDate", Json.str now),
    ("entries", Json.arr ((getAll parseDate s).map entryToJson)),
    ("stats", statsToJson (getStats parseDate s))]

/-! ### Import (`PokedeckStore.import`) -/

/-- The entry validator inside `import`: `typeof entry === 'object'`,
non-null, and the five fields with the required types (`types` only has to
be an array — element types are not checked). -/
def isValidEntry (j : Json) : Bool :=
  (match jsonField j "id" with | some (Json.num _) => true | _ => false) &&
  (match jsonField j "name" with | some (Json.str _) => true | _ => false) &&
  (match jsonField j "sprite" with | some (Json.str _) => true | _ => false) &&
  (match jsonField j "types" with | some (Json.arr _) => true | _ => false) &&
  (match jsonField j "dateAdded" with | some (Json.str _) => true | _ => false)

/-- `entry.id` of a validated entry (defaulting is dead code for valid
entries). -/
def entryIdOf (j : Json) : ℚ :=
  match jsonField j "id" with | some (Json.num q) => q | _ => 0

/-- A validated entry's string field. -/
def entryStrOf (j : Json) (key : String) : String :=
  match jsonField j key with | some (Json.str s) => s | _ => ""

/-- A validated entry's `types` array, kept as raw JSON values. -/
def entryTypesOf (j : Json) : List Json :=
  match jsonField j "types" with | some (Json.arr l) => l | _ => []

/-- The stored entry built by `import` for a validated document entry:
`{...entry, dateAdded: entry.dateAdded || new Date().toISOString()}`
(the empty string is falsy, so it is replaced by the current time). -/
def entryOfJson (j : Json) (now : String) : PokedeckEntry :=
  { id := entryIdOf j, name := entryStrOf j "name",
    sprite := entryStrOf j "sprite", types := entryTypesOf j,
    dateAdded := if entryStrOf j "dateAdded" = "" then now else entryStrOf j "dateAdded" }

/-- `PokedeckStore.import` applied to an already-parsed document.  Every
`throw` inside the `try` lands in the `catch`, which returns `false`
leaving the store untouched; the store is cleared only after validation
has succeeded. -/
def importJson (s : Store) (doc : Json) (now : String) : Bool × Store :=
  match jsonField doc "entries" with
  | some (Json.arr es) =>
    let validEntries := es.filter isValidEntry
    if validEntries.isEmpty then (false, s)
    else
      (true, validEntries.foldl (fun m e => mapSet m (entryIdOf e) (entryOfJson e now)) [])
  | _ => (false, s)

/-- `PokedeckStore.import` on the result of `JSON.parse`: `none` models a
syntax error (the thrown `SyntaxError` is caught and mapped to `false`). -/
def importParsed (s : Store) (parsed : Option Json) (now : String) : Bool × Store :=
  match parsed with
  | none => (false, s)
  | some doc => importJson s doc now

/-! ### Listeners (`subscribe`, `notifyListeners`) -/

/-- A subscribed listener: called with the full entry list; `Except.error`
models a thrown exception, `Except.ok o` a normal return with observable
output `o`. -/
abbrev Listener := List PokedeckEntry → Except String String

/-- `this.listeners.forEach(listener => listener(entries))`: invoked in
registration order; an exception aborts the iteration, so it returns the
outputs of the listeners that ran and the first error, if any. -/
def runListeners (entries : List PokedeckEntry) :
    List Listener → List String × Option String
  | [] => ([], none)
  | l :: rest =>
    match l entries with
    | .error e => ([], some e)
    | .ok o =>
      let r := runListeners entries rest
      (o :: r.1, r.2)

/-- `PokedeckStore.subscribe`: adds the listener to the `Set` (callers pass
fresh closures, so the reference-identity dedup of `Set.add` never fires)
and performs no invocation — the registered listener is first called at the
next mutation. -/
def subscribe (listeners : List Listener) (l : Listener) : List Listener :=
  listeners ++ [l]

/-- The listener outputs produced by `saveToStorage`'s
`this.notifyListeners()`; the surrounding `try/catch` swallows a listener
exception, so only the outputs escape. -/
def notifyOutputs (parseDate : String → Int) (s : Store) (ls : List Listener) :
    List String :=
  (runListeners (getAll parseDate s) ls).1

/-- `PokedeckStore.add` with `saveToStorage`'s listener notification: on a
fresh insert the (already mutated) store is persisted and the listeners
run; the duplicate early-return path performs no notification. -/
def addNotify (parseDate : String → Int) (s : Store) (ls : List Listener)
    (p : AddInput) (now : String) :
    Except String (Bool × Store × List String) :=
  match add s p now with
  | .error e => .error e
  | .ok (false, s') => .ok (false, s', [])
  | .ok (true, s') => .ok (true, s', notifyOutputs parseDate s' ls)

/-! ### The query engine (`filterPokemon`, src/unnamed/part_004)

Only the fields the filter pipeline reads are embedded from the `Pokemon`
record of `src/lib/types/pokemon.ts`. -/

/-- `{ name, url }` inside a `PokemonType`. -/
structure TypeRef where
  name : String
  url : String

/-- `PokemonType { slot, type }`. -/
structure PokemonType where
  slot : Int
  type : TypeRef

/-- The creature record (the fields `filterPokemon` touches). -/
structure Pokemon where
  id : Int
  name : String
  height : Int
  weight : Int
  types : List PokemonType

/-- `SearchFilters.sortBy`. -/
inductive SortKey where
  | id | name | height | weight
deriving DecidableEq

/-- `SearchFilters.sortOrder`. -/
inductive SortDir where
  | asc | desc
deriving DecidableEq

/-- `SearchFilters` (plus the `preset` field the code reads off it). -/
structure SearchFilters where
  type : Option String := none
  minId : Option Int := none
  maxId : Option Int := none
  sortBy : Option SortKey := none
  sortOrder : Option SortDir := none
  preset : Option String := none

/-- `FILTER_PRESETS`: the fixed id allowlists. -/
def FILTER_PRESETS : List (String × List Int) :=
  [("starter", [1, 4, 7, 152, 155, 158, 252, 255, 258, 387, 390, 393, 495,
      498, 501, 650, 653, 656, 722, 725, 728, 810, 813, 816]),
   ("legendary", [144, 145, 146, 150, 151, 243, 244, 245, 249, 250, 251,
      377, 378, 379, 380, 381, 382, 383, 384, 385, 386]),
   ("popular", [1, 4, 7, 25, 39, 54, 104, 132, 144, 150, 151, 249, 250,
      448, 493])]

/-- `FILTER_PRESETS[key]`, `none` when the preset name is unrecognized. -/
def presetIds (key : String) : Option (List Int) :=
  (FILTER_PRESETS.find? (fun p => p.1 == key)).map (fun p => p.2)

/-- `searchText(pokemon, query)`: id-as-decimal-string, lower-cased name,
or any lower-cased type-tag contains the lower-cased query as a
substring. -/
def searchText (pokemon : Pokemon) (query : String) : Bool :=
  let normalizedQuery := lowerStr query
  strIncludes (intToStr pokemon.id) normalizedQuery ||
  strIncludes (lowerStr pokemon.name) normalizedQuery ||
  pokemon.types.any (fun t => strIncludes (lowerStr t.type.name) normalizedQuery)

/-- `sortingFunctions[sortBy](a, b, order)`: numeric keys compare by
subtraction, `name` by `localeCompare` (modelled by `lexCmp`); `desc`
swaps the arguments. -/
def sortCmp : SortKey → SortDir → Pokemon → Pokemon → Int
  | .id, .asc, a, b => a.id - b.id
  | .id, .desc, a, b => b.id - a.id
  | .name, .asc, a, b => lexCmp a.name.data b.name.data
  | .name, .desc, a, b => lexCmp b.name.data a.name.data
  | .height, .asc, a, b => a.height - b.height
  | .height, .desc, a, b => b.height - a.height
  | .weight, .asc, a, b => a.weight - b.weight
  | .weight, .desc, a, b => b.weight - a.weight

/-- `filterPokemon(pokemonList, filters, searchQuery)`: the five-stage
pipeline.  (The `if (!pokemonList.length) return result` early exit is the
identity on the empty list, which each stage also maps to itself.)
`searchQuery = none` models an omitted argument, `some ""` an empty
string (both falsy); `filters.type = some ""` is likewise falsy and skips
the type stage. -/
def filterPokemon (pokemonList : List Pokemon) (filters : SearchFilters)
    (searchQuery : Option String) : List Pokemon :=
  let result := pokemonList
  let result := match searchQuery with
    | some q =>
      if trimStr q ≠ "" then result.filter (fun p => searchText p (trimStr q))
      else result
    | none => result
  let result := match filters.type with
    | some t =>
      if t ≠ "" then
        result.filter (fun p => p.types.any (fun ty => ty.type.name == t))
      else result
    | none => result
  let result := match filters.minId with
    | some m => result.filter (fun p => m ≤ p.id)
    | none => result
  let result := match filters.maxId with
    | some m => result.filter (fun p => p.id ≤ m)
    | none => result
  let result := match filters.preset with
    | some pr =>
      match presetIds pr with
      | some ids => result.filter (fun p => ids.contains p.id)
      | none => result
    | none => result
  match filters.sortBy with
  | some sk => jsSort (sortCmp sk (filters.sortOrder.getD .asc)) result
  | none => result

/-- The conjunction of the pipeline's active predicates, as the spec states
it: free-text match, exact type-tag equality, id bounds, preset
membership; an absent (or falsy, or unrecognized-preset) component is
vacuously true. -/
def activePred (filters : SearchFilters) (searchQuery : Option String)
    (p : Pokemon) : Bool :=
  (match searchQuery with
    | some q => if trimStr q ≠ "" then searchText p (trimStr q) else true
    | none => true) &&
  (match filters.type with
    | some t => if t ≠ "" then p.types.any (fun ty => ty.type.name == t) else true
    | none => true) &&
  (match filters.minId with
    | some m => decide (m ≤ p.id)
    | none => true) &&
  (match filters.maxId with
    | some m => decide (p.id ≤ m)
    | none => true) &&
  (match filters.preset with
    | some pr =>
      match presetIds pr with
      | some ids => ids.contains p.id
      | none => true
    | none => true)

/-! ### Lemmas about the `Map` model -/

/-- The key list of the store, in insertion order. -/
def keys (m : Store) : List ℚ :=
  m.map Prod.fst

theorem mapGet_cons (k' : ℚ) (v' : PokedeckEntry) (rest : Store) (q : ℚ) :
    mapGet ((k', v') :: rest) q = if k' = q then some v' else mapGet rest q := by
  simp only [mapGet]
  by_cases h : k' = q <;> simp [h]

theorem mapHas_cons (k' : ℚ) (v' : PokedeckEntry) (rest : Store) (k : ℚ) :
    mapHas ((k', v') :: rest) k = ((k' == k) || mapHas rest k) := by
  simp [mapHas, List.any_cons]

theorem mapHas_iff_mem_keys {m : Store} {k : ℚ} :
    mapHas m k = true ↔ k ∈ keys m := by
  simp [mapHas, keys, List.any_eq_true, beq_iff_eq, List.mem_map]

theorem mapHas_eq_isSome (m : Store) (k : ℚ) :
    mapHas m k = (mapGet m k).isSome := by
  induction m with
  | nil => rfl
  | cons p rest ih =>
    obtain ⟨k', v⟩ := p
    rw [mapHas_cons, mapGet_cons]
    by_cases h : k' = k
    · simp [h]
    · simp [h, ih]

theorem mapGet_replace_ne {m : Store} {k q : ℚ} (v : PokedeckEntry)
    (h : q ≠ k) :
    mapGet (m.map (fun p => if p.1 == k then (k, v) else p)) q = mapGet m q := by
  induction m with
  | nil => rfl
  | cons p rest ih =>
    obtain ⟨k', v'⟩ := p
    simp only [List.map_cons]
    by_cases hk : k' = k
    · have hhead : (if ((k', v').1 == k) = true then (k, v) else (k', v')) = (k, v) := by
        simp [hk]
      rw [hhead, mapGet_cons, mapGet_cons,
        if_neg (fun hh : k = q => h hh.symm),
        if_neg (fun hh : k' = q => h (hh.symm.trans hk)), ih]
    · have hhead : (if ((k', v').1 == k) = true then (k, v) else (k', v')) = (k', v') := by
        simp [hk]
      rw [hhead, mapGet_cons, mapGet_cons]
      by_cases hq : k' = q
      · rw [if_pos hq, if_pos hq]
      · rw [if_neg hq, if_neg hq, ih]

theorem mapGet_replace_eq {m : Store} {k : ℚ} (v : PokedeckEntry)
    (h : mapHas m k = true) :
    mapGet (m.map (fun p => if p.1 == k then (k, v) else p)) k = some v := by
  induction m with
  | nil => simp [mapHas] at h
  | cons p rest ih =>
    obtain ⟨k', v'⟩ := p
    simp only [List.map_cons]
    by_cases hk : k' = k
    · have hhead : (if ((k', v').1 == k) = true then (k, v) else (k', v')) = (k, v) := by
        simp [hk]
      rw [hhead, mapGet_cons, if_pos rfl]
    · have hhead : (if ((k', v').1 == k) = true then (k, v) else (k', v')) = (k', v') := by
        simp [hk]
      rw [mapHas_cons, Bool.or_eq_true] at h
      have hrest : mapHas rest k = true := by
        rcases h with h | h
        · exact absurd (by simpa using h) hk
        · exact h
      rw [hhead, mapGet_cons, if_neg hk]
      exact ih hrest

theorem mapGet_append_single (m : Store) (k q : ℚ) (v : PokedeckEntry) :
    mapGet (m ++ [(k, v)]) q =
      match mapGet m q with
      | some r => some r
      | none => if k = q then some v else none := by
  induction m with
  | nil =>
    rw [List.nil_append, mapGet_cons]
    by_cases h : k = q <;> simp [h, mapGet]
  | cons p rest ih =>
    obtain ⟨k', v'⟩ := p
    rw [List.cons_append, mapGet_cons, mapGet_cons]
    by_cases hq : k' = q
    · simp [hq]
    · simp [hq, ih]

/-- `Map.set` and `Map.get`: the set key reads back the new value, every
other key is untouched. -/
theorem mapGet_mapSet (m : Store) (k q : ℚ) (v : PokedeckEntry) :
    mapGet (mapSet m k v) q = if q = k then some v else mapGet m q := by
  unfold mapSet
  by_cases hhas : mapHas m k
  · rw [if_pos hhas]
    by_cases hq : q = k
    · subst hq
      rw [if_pos rfl, mapGet_replace_eq v hhas]
    · rw [if_neg hq, mapGet_replace_ne v hq]
  · rw [if_neg hhas]
    rw [mapGet_append_single]
    have hnone : mapGet m k = none := by
      have hs := mapHas_eq_isSome m k
      cases hg : mapGet m k
      · rfl
      · rw [hg] at hs
        simp at hs
        exact absurd hs hhas
    by_cases hq : q = k
    · subst hq
      rw [hnone, if_pos rfl]
    · rw [if_neg hq]
      cases hg : mapGet m q
      · simp [if_neg (fun hh : k = q => hq hh.symm)]
      · simp

theorem keys_map_replace (m : Store) (k : ℚ) (v : PokedeckEntry) :
    keys (m.map (fun p => if p.1 == k then (k, v) else p)) = keys m := by
  have hfst : ∀ p : ℚ × PokedeckEntry,
      (if (p.1 == k) = true then (k, v) else p).1 = p.1 := by
    intro p
    by_cases hp : p.1 = k
    · simp [hp]
    · simp [hp]
  induction m with
  | nil => rfl
  | cons p rest ih =>
    simp only [keys, List.map_cons] at ih ⊢
    rw [hfst p, ih]

theorem keys_mapSet_of_has {m : Store} {k : ℚ} (v : PokedeckEntry)
    (h : mapHas m k = true) : keys (mapSet m k v) = keys m := by
  unfold mapSet
  rw [if_pos h]
  exact keys_map_replace m k v

theorem keys_mapSet_of_not_has {m : Store} {k : ℚ} (v : PokedeckEntry)
    (h : ¬(mapHas m k = true)) : keys (mapSet m k v) = keys m ++ [k] := by
  unfold mapSet
  rw [if_neg h]
  simp [keys]

theorem nodup_keys_mapSet {m : Store} {k : ℚ} (v : PokedeckEntry)
    (h : (keys m).Nodup) : (keys (mapSet m k v)).Nodup := by
  by_cases hhas : mapHas m k
  · rw [keys_mapSet_of_has v hhas]
    exact h
  · rw [keys_mapSet_of_not_has v hhas]
    have hk : k ∉ keys m := fun hmem => hhas (mapHas_iff_mem_keys.mpr hmem)
    simp [List.nodup_append, h, hk]

theorem mapSize_mapSet (m : Store) (k : ℚ) (v : PokedeckEntry) :
    mapSize (mapSet m k v) = if mapHas m k then mapSize m else mapSize m + 1 := by
  by_cases hhas : mapHas m k <;> simp [mapSet, mapSize, hhas]

theorem mapSize_mapDelete_le (m : Store) (k : ℚ) :
    mapSize (mapDelete m k) ≤ mapSize m :=
  List.length_filter_le _ m

/-! ### Behaviour of `add` -/

theorem add_of_has {s : Store} {p : AddInput} (now : String)
    (h : mapHas s p.id = true) : add s p now = Except.ok (false, s) := by
  unfold add
  rw [if_neg (fun hc => hc.2 h), if_pos h]

theorem add_of_new {s : Store} {p : AddInput} (now : String)
    (hroom : mapSize s < MAX_POKEDECK_SIZE) (h : mapHas s p.id = false) :
    add s p now = Except.ok (true, mapSet s p.id
      { id := p.id, name := p.name, sprite := p.sprite,
        types := p.types.map Json.str, dateAdded := now }) := by
  unfold add
  rw [if_neg (fun hc => absurd hc.1 (by omega)), if_neg (by simp [h])]

theorem add_error_iff (s : Store) (p : AddInput) (now : String) :
    (∃ e, add s p now = Except.error e) ↔
      (mapSize s ≥ MAX_POKEDECK_SIZE ∧ mapHas s p.id = false) := by
  unfold add
  by_cases hc : mapSize s ≥ MAX_POKEDECK_SIZE ∧ ¬(mapHas s p.id = true)
  · rw [if_pos hc]
    constructor
    · intro _
      exact ⟨hc.1, by simpa using hc.2⟩
    · intro _
      exact ⟨_, rfl⟩
  · rw [if_neg hc]
    constructor
    · rintro ⟨e, he⟩
      by_cases h2 : mapHas s p.id = true
      · rw [if_pos h2] at he
        exact Except.noConfusion he
      · rw [if_neg h2] at he
        exact Except.noConfusion he
    · rintro ⟨h1, h2⟩
      exact absurd ⟨h1, by simp [h2]⟩ hc

/-- One `add` call inside a call sequence; the thrown capacity error is
assumed caught by the caller, and the code throws before mutating, so the
store is unchanged on that path. -/
def addStep (s : Store) (pc : AddInput × String) : Store :=
  match add s pc.1 pc.2 with
  | .ok (_, s') => s'
  | .error _ => s

/-- The store after a sequence of `add` calls starting from the empty
store. -/
def runAdds (seq : List (AddInput × String)) : Store :=
  seq.foldl addStep []

/-- Keys index entries by their own id: every pair satisfies
`key = entry.id`. -/
def KeyConsistent (m : Store) : Prop :=
  ∀ p ∈ m, p.1 = p.2.id

theorem keyConsistent_mapSet {m : Store} {k : ℚ} {v : PokedeckEntry}
    (hm : KeyConsistent m) (hv : k = v.id) : KeyConsistent (mapSet m k v) := by
  intro p hp
  unfold mapSet at hp
  by_cases hhas : mapHas m k
  · rw [if_pos hhas] at hp
    obtain ⟨q, hq, hpq⟩ := List.mem_map.mp hp
    by_cases h1 : (q.1 == k) = true
    · rw [if_pos h1] at hpq
      rw [← hpq]
      exact hv
    · rw [if_neg h1] at hpq
      rw [← hpq]
      exact hm q hq
  · rw [if_neg hhas] at hp
    rcases List.mem_append.mp hp with h1 | h1
    · exact hm p h1
    · rw [List.mem_singleton.mp h1]
      exact hv

theorem addStep_invariant {s : Store} (pc : AddInput × String)
    (h : (keys s).Nodup ∧ KeyConsistent s) :
    (keys (addStep s pc)).Nodup ∧ KeyConsistent (addStep s pc) := by
  unfold addStep
  rcases hcase : add s pc.1 pc.2 with e | ⟨b, s'⟩
  · exact h
  · unfold add at hcase
    by_cases hc : mapSize s ≥ MAX_POKEDECK_SIZE ∧ ¬(mapHas s pc.1.id = true)
    · rw [if_pos hc] at hcase
      exact Except.noConfusion hcase
    · rw [if_neg hc] at hcase
      by_cases h2 : mapHas s pc.1.id = true
      · rw [if_pos h2] at hcase
        injection hcase with hcase
        injection hcase with _ hs
        rw [← hs]
        exact h
      · rw [if_neg h2] at hcase
        injection hcase with hcase
        injection hcase with _ hs
        rw [← hs]
        exact ⟨nodup_keys_mapSet _ h.1, keyConsistent_mapSet h.2 rfl⟩

theorem ids_eq_keys {m : Store} (hm : KeyConsistent m) :
    (mapValues m).map PokedeckEntry.id = keys m := by
  induction m with
  | nil => rfl
  | cons p rest ih =>
    simp only [mapValues, keys, List.map_cons] at ih ⊢
    rw [ih (fun q hq => hm q (List.mem_cons_of_mem p hq)),
      ← hm p (List.mem_cons_self p rest)]

theorem runAdds_invariant (seq : List (AddInput × String)) :
    (keys (runAdds seq)).Nodup ∧ KeyConsistent (runAdds seq) := by
  unfold runAdds
  have : ∀ (s : Store), (keys s).Nodup ∧ KeyConsistent s →
      (keys (seq.foldl addStep s)).Nodup ∧ KeyConsistent (seq.foldl addStep s) := by
    induction seq with
    | nil => intro s h; exact h
    | cons pc rest ih =>
      intro s h
      exact ih _ (addStep_invariant pc h)
  exact this [] ⟨List.nodup_nil, fun p hp => absurd hp (List.not_mem_nil p)⟩

/-! ### Size preservation of the mutators -/

theorem add_size_le {s s' : Store} {b : Bool} {p : AddInput} {now : String}
    (h : mapSize s ≤ MAX_POKEDECK_SIZE)
    (hadd : add s p now = Except.ok (b, s')) :
    mapSize s' ≤ MAX_POKEDECK_SIZE := by
  unfold add at hadd
  by_cases hc : mapSize s ≥ MAX_POKEDECK_SIZE ∧ ¬(mapHas s p.id = true)
  · rw [if_pos hc] at hadd
    exact Except.noConfusion hadd
  · rw [if_neg hc] at hadd
    by_cases h2 : mapHas s p.id = true
    · rw [if_pos h2] at hadd
      injection hadd with hadd
      injection hadd with _ hs
      rw [← hs]
      exact h
    · rw [if_neg h2] at hadd
      injection hadd with hadd
      injection hadd with _ hs
      rw [← hs]
      rw [mapSize_mapSet]
      rw [if_neg h2]
      have : ¬(mapSize s ≥ MAX_POKEDECK_SIZE) := fun hge => hc ⟨hge, h2⟩
      omega

theorem addMultipleStep_size_le (st : BulkAddResult × Store) (p : AddInput)
    (now : String) (h : mapSize st.2 ≤ MAX_POKEDECK_SIZE) :
    mapSize (addMultipleStep st p now).2 ≤ MAX_POKEDECK_SIZE := by
  obtain ⟨r, s⟩ := st
  simp only [addMultipleStep]
  by_cases h1 : mapHas s p.id = true
  · rw [if_pos h1]
    exact h
  · rw [if_neg h1]
    by_cases h2 : mapSize s ≥ MAX_POKEDECK_SIZE
    · rw [if_pos h2]
      exact h
    · rw [if_neg h2]
      show mapSize (mapSet s p.id _) ≤ MAX_POKEDECK_SIZE
      rw [mapSize_mapSet, if_neg h1]
      simp only [mapSize] at h2 ⊢
      omega

theorem addMultiple_size_le (ps : List AddInput) (now : String) :
    ∀ init : BulkAddResult × Store, mapSize init.2 ≤ MAX_POKEDECK_SIZE →
      mapSize (ps.foldl (fun st p => addMultipleStep st p now) init).2 ≤
        MAX_POKEDECK_SIZE := by
  induction ps with
  | nil => intro init h; exact h
  | cons p rest ih =>
    intro init h
    exact ih _ (addMultipleStep_size_le init p now h)

theorem removeMultiple_size_le (ids : List ℚ) :
    ∀ init : (Nat × Nat) × Store, mapSize init.2 ≤ MAX_POKEDECK_SIZE →
      mapSize (ids.foldl
        (fun st id =>
          let ((removed, notFound), s) := st
          if mapHas s id then ((removed + 1, notFound), mapDelete s id)
          else ((removed, notFound + 1), s)) init).2 ≤ MAX_POKEDECK_SIZE := by
  induction ids with
  | nil => intro init h; exact h
  | cons id rest ih =>
    intro init h
    apply ih
    obtain ⟨⟨removed, notFound⟩, s⟩ := init
    by_cases h1 : mapHas s id = true
    · simp only [if_pos h1]
      exact le_trans (mapSize_mapDelete_le s id) h
    · simp only [if_neg h1]
      exact h

/-! ### Concrete import documents used by counterexamples and witnesses -/

/-- A structurally valid document entry with id `i`. -/
def bulkEntry (i : ℚ) : Json :=
  Json.obj [("id", Json.num i), ("name", Json.str "bulk"),
    ("sprite", Json.str "s"), ("types", Json.arr []),
    ("dateAdded", Json.str "2024-01-01T00:00:00.000Z")]

/-- `{"entries": [bulkEntry 0, …, bulkEntry (n-1)]}`. -/
def bulkDoc (n : Nat) : Json :=
  Json.obj [("entries", Json.arr ((List.range n).map (fun i => bulkEntry i)))]

/-- The store produced by importing `bulkDoc n` into an empty store. -/
def bulkStore (n : Nat) : Store :=
  (importParsed [] (some (bulkDoc n)) "T").2

/-! ### Claims C1–C3 -/

/-- **C1**: over any sequence of `add` calls starting from the empty store,
entry ids stay pairwise distinct, and an `add` of an already-present id
returns `false` and leaves the whole store — in particular the stored
entry and its `dateAdded` — unchanged. -/
theorem claim_C1 :
    (∀ seq : List (AddInput × String),
      ((mapValues (runAdds seq)).map PokedeckEntry.id).Nodup) ∧
    (∀ (s : Store) (p : AddInput) (now : String),
      mapHas s p.id = true → add s p now = Except.ok (false, s)) := by
  constructor
  · intro seq
    obtain ⟨h1, h2⟩ := runAdds_invariant seq
    rw [ids_eq_keys h2]
    exact h1
  · intro s p now h
    exact add_of_has now h

/-- Witness for C1 at a concrete duplicate-`add` sequence and a concrete
occupied store. -/
theorem claim_C1_witness :
    ((mapValues (runAdds [(⟨1, "bulbasaur", "spr", ["grass"]⟩, "t1"),
        (⟨1, "bulbasaur", "spr", ["grass"]⟩, "t2")])).map PokedeckEntry.id).Nodup ∧
    add [((1 : ℚ), ⟨1, "bulbasaur", "spr", [Json.str "grass"], "t1"⟩)]
        ⟨1, "bulbasaur", "spr2", ["grass"]⟩ "t2" =
      Except.ok (false, [((1 : ℚ), ⟨1, "bulbasaur", "spr", [Json.str "grass"], "t1"⟩)]) :=
  ⟨claim_C1.1 _, claim_C1.2 _ ⟨1, "bulbasaur", "spr2", ["grass"]⟩ "t2" (by decide)⟩

/-- **C2 counterexample**: the claim "`add` throws in no other circumstance
[than `count == 50`]" is false: `import` enforces no capacity bound, so a
51-entry store is reachable, and there `add` of a new id throws although
the count is 51, not 50. -/
theorem claim_C2_counterexample :
    (importParsed [] (some (bulkDoc 51)) "T").1 = true ∧
    mapSize (bulkStore 51) = 51 ∧
    mapSize (bulkStore 51) ≠ 50 ∧
    (∃ e, add (bulkStore 51) ⟨100, "extra", "s", []⟩ "T" = Except.error e) :=
  ⟨by decide, by decide, by decide,
    (add_error_iff _ _ _).mpr ⟨by decide, by decide⟩⟩

/-- **C2 (amended)**: `add` throws exactly when the entry count is at least
the maximum (50) and the id is new — at exactly 50 this is the claimed
behaviour, but counts above 50 are reachable via `import`; `add` of an
already-present id returns `false` and changes nothing, regardless of the
count. -/
theorem claim_C2 :
    ∀ (s : Store) (p : AddInput) (now : String),
      ((∃ e, add s p now = Except.error e) ↔
        (mapSize s ≥ MAX_POKEDECK_SIZE ∧ mapHas s p.id = false)) ∧
      (mapSize s = MAX_POKEDECK_SIZE → mapHas s p.id = false →
        ∃ e, add s p now = Except.error e) ∧
      (mapHas s p.id = true → add s p now = Except.ok (false, s)) := by
  intro s p now
  refine ⟨add_error_iff s p now, ?_, fun h => add_of_has now h⟩
  intro hsize hhas
  exact (add_error_iff s p now).mpr ⟨le_of_eq hsize.symm, hhas⟩

/-- Witness for C2 at a store filled to exactly 50 entries. -/
theorem claim_C2_witness :
    (∃ e, add (bulkStore 50) ⟨100, "extra", "s", []⟩ "T" = Except.error e) ∧
    add (bulkStore 50) ⟨7, "dup", "s", []⟩ "T" = Except.ok (false, bulkStore 50) :=
  ⟨(claim_C2 (bulkStore 50) ⟨100, "extra", "s", []⟩ "T").2.1 (by decide) (by decide),
   (claim_C2 (bulkStore 50) ⟨7, "dup", "s", []⟩ "T").2.2 (by decide)⟩

/-- **C3 counterexample**: `import` does not preserve the ≤ 50 bound: from
the empty store (size 0 ≤ 50), importing a 51-entry document succeeds and
leaves 51 entries. -/
theorem claim_C3_counterexample :
    mapSize ([] : Store) ≤ MAX_POKEDECK_SIZE ∧
    (importParsed [] (some (bulkDoc 51)) "T").1 = true ∧
    mapSize (importParsed [] (some (bulkDoc 51)) "T").2 = 51 :=
  ⟨by decide, by decide, by decide⟩

/-- **C3 (amended)**: `add`, `addMultiple`, `remove`, `removeMultiple` and
`clear` all preserve the `size ≤ 50` invariant; `import` (excluded here,
see the counterexample) does not. -/
theorem claim_C3 :
    ∀ s : Store, mapSize s ≤ MAX_POKEDECK_SIZE →
      (∀ (p : AddInput) (now : String) (r : Bool × Store),
        add s p now = Except.ok r → mapSize r.2 ≤ MAX_POKEDECK_SIZE) ∧
      (∀ (ps : List AddInput) (now : String),
        mapSize (addMultiple s ps now).2 ≤ MAX_POKEDECK_SIZE) ∧
      (∀ id : ℚ, mapSize (remove s id).2 ≤ MAX_POKEDECK_SIZE) ∧
      (∀ ids : List ℚ, mapSize (removeMultiple s ids).2 ≤ MAX_POKEDECK_SIZE) ∧
      mapSize (clear s) ≤ MAX_POKEDECK_SIZE := by
  intro s h
  refine ⟨?_, ?_, ?_, ?_, ?_⟩
  · intro p now r hadd
    exact add_size_le h hadd
  · intro ps now
    exact addMultiple_size_le ps now _ h
  · intro id
    exact le_trans (mapSize_mapDelete_le s id) h
  · intro ids
    exact removeMultiple_size_le ids _ h
  · simp [clear, mapSize]

/-- Witness for C3 at a concrete one-entry store. -/
theorem claim_C3_witness :
    mapSize (addMultiple [((1 : ℚ), ⟨1, "b", "s", [], "t"⟩)]
      [⟨2, "c", "s", []⟩] "T").2 ≤ MAX_POKEDECK_SIZE ∧
    mapSize (remove [((1 : ℚ), ⟨1, "b", "s", [], "t"⟩)] 1).2 ≤ MAX_POKEDECK_SIZE ∧
    mapSize (removeMultiple [((1 : ℚ), ⟨1, "b", "s", [], "t"⟩)] [1, 2]).2 ≤
      MAX_POKEDECK_SIZE ∧
    mapSize (clear [((1 : ℚ), ⟨1, "b", "s", [], "t"⟩)]) ≤ MAX_POKEDECK_SIZE ∧
    mapSize (([((1 : ℚ), ⟨1, "b", "s", [], "t"⟩),
      ((2 : ℚ), ⟨2, "c", "s", [Json.str "x"], "T"⟩)] : Store)) ≤ MAX_POKEDECK_SIZE :=
  ⟨((claim_C3 _ (by decide)).2.1 _ "T"),
   ((claim_C3 _ (by decide)).2.2.1 1),
   ((claim_C3 _ (by decide)).2.2.2.1 [1, 2]),
   ((claim_C3 _ (by decide)).2.2.2.2),
   ((claim_C3 [((1 : ℚ), ⟨1, "b", "s", [], "t"⟩)] (by decide)).1
     ⟨2, "c", "s", [Json.str "x"].map (fun _ => "x")⟩ "T" _ (by rfl))⟩

/-! ### The import fold: last occurrence per id wins -/

theorem getLast?_cons_match {α : Type} (x : α) (xs : List α) :
    (x :: xs).getLast? =
      (match xs.getLast? with
       | some y => some y
       | none => some x) := by
  induction xs with
  | nil => rfl
  | cons z zs _ =>
    rw [List.getLast?_cons_cons]
    have : (z :: zs).getLast?.isSome := by
      rw [List.getLast?_isSome]
      exact List.cons_ne_nil z zs
    cases hg : (z :: zs).getLast?
    · rw [hg] at this
      exact Bool.noConfusion this
    · rfl

/-- The single-step body of `import`'s `validEntries.forEach(...set...)`. -/
def importSetStep (now : String) (m : Store) (j : Json) : Store :=
  mapSet m (entryIdOf j) (entryOfJson j now)

theorem mapGet_importFold (es : List Json) (now : String) :
    ∀ (m0 : Store) (q : ℚ),
      mapGet (es.foldl (importSetStep now) m0) q =
        (match (es.filter (fun j => entryIdOf j == q)).getLast? with
         | some j => some (entryOfJson j now)
         | none => mapGet m0 q) := by
  induction es with
  | nil => intro m0 q; rfl
  | cons j rest ih =>
    intro m0 q
    rw [List.foldl_cons, ih]
    by_cases hq : entryIdOf j = q
    · rw [List.filter_cons_of_pos (by simp [hq])]
      rw [getLast?_cons_match]
      cases hg : (rest.filter (fun j' => entryIdOf j' == q)).getLast?
      · simp only [hg]
        unfold importSetStep
        rw [mapGet_mapSet, if_pos hq.symm]
      · simp only [hg]
    · rw [List.filter_cons_of_neg (by simp [hq])]
      cases hg : (rest.filter (fun j' => entryIdOf j' == q)).getLast?
      · simp only [hg]
        unfold importSetStep
        rw [mapGet_mapSet, if_neg (fun hh => hq hh.symm)]
      · simp only [hg]

theorem nodup_keys_importFold (es : List Json) (now : String) :
    ∀ m0 : Store, (keys m0).Nodup →
      (keys (es.foldl (importSetStep now) m0)).Nodup := by
  induction es with
  | nil => intro m0 h; exact h
  | cons j rest ih =>
    intro m0 h
    exact ih _ (nodup_keys_mapSet _ h)

theorem mem_values_importFold (es : List Json) (now : String) :
    ∀ (m0 : Store) (e : PokedeckEntry),
      e ∈ mapValues (es.foldl (importSetStep now) m0) →
        e ∈ mapValues m0 ∨ ∃ j ∈ es, e = entryOfJson j now := by
  induction es with
  | nil =>
    intro m0 e h
    exact Or.inl h
  | cons j rest ih =>
    intro m0 e h
    rcases ih _ e h with h1 | ⟨j', hj', he⟩
    · unfold importSetStep mapSet at h1
      by_cases hhas : mapHas m0 (entryIdOf j)
      · rw [if_pos hhas] at h1
        unfold mapValues at h1
        rw [List.map_map] at h1
        obtain ⟨p, hp, hpe⟩ := List.mem_map.mp h1
        by_cases hpk : (p.1 == entryIdOf j) = true
        · right
          refine ⟨j, List.mem_cons_self j rest, ?_⟩
          simp only [Function.comp, hpk, if_pos] at hpe
          exact hpe.symm
        · left
          simp only [Function.comp, hpk] at hpe
          rw [if_neg (by simp_all)] at hpe
          rw [← hpe]
          exact List.mem_map_of_mem Prod.snd hp
      · rw [if_neg hhas] at h1
        unfold mapValues at h1
        rw [List.map_append] at h1
        rcases List.mem_append.mp h1 with h2 | h2
        · exact Or.inl h2
        · right
          refine ⟨j, List.mem_cons_self j rest, ?_⟩
          simpa using h2
    · exact Or.inr ⟨j', List.mem_cons_of_mem j hj', he⟩

theorem length_eq_of_nodup_of_mem_iff {l1 l2 : List ℚ}
    (h1 : l1.Nodup) (h2 : l2.Nodup) (hm : ∀ a, a ∈ l1 ↔ a ∈ l2) :
    l1.length = l2.length := by
  rw [← List.toFinset_card_of_nodup h1, ← List.toFinset_card_of_nodup h2]
  congr 1
  ext a
  simp only [List.mem_toFinset]
  exact hm a

/-- Exhaustive outcome analysis of `import` on a parsed document: either a
non-empty validated entry list exists and the store is rebuilt from it
alone, or the call returns `false` with the store untouched. -/
theorem importJson_spec (doc : Json) (s : Store) (now : String) :
    (∃ es, jsonField doc "entries" = some (Json.arr es) ∧
      es.filter isValidEntry ≠ [] ∧
      importJson s doc now =
        (true, (es.filter isValidEntry).foldl (importSetStep now) [])) ∨
    (importJson s doc now = (false, s) ∧
      ∀ es, jsonField doc "entries" = some (Json.arr es) →
        es.filter isValidEntry = []) := by
  unfold importJson
  cases hf : jsonField doc "entries" with
  | none =>
    right
    refine ⟨rfl, ?_⟩
    intro es he
    exact Option.noConfusion he
  | some val =>
    cases val with
    | arr es =>
      cases hv : es.filter isValidEntry with
      | nil =>
        right
        constructor
        · simp only [hv]
          rfl
        · intro es' he
          injection he with he
          injection he with he
          rw [← he]
          exact hv
      | cons j rest =>
        left
        refine ⟨es, rfl, by simp [hv], ?_⟩
        simp only [hv]
        rfl
    | null => right; refine ⟨rfl, fun es he => ?_⟩; injection he with he; exact Json.noConfusion he
    | bool b => right; refine ⟨rfl, fun es he => ?_⟩; injection he with he; exact Json.noConfusion he
    | num q => right; refine ⟨rfl, fun es he => ?_⟩; injection he with he; exact Json.noConfusion he
    | str t => right; refine ⟨rfl, fun es he => ?_⟩; injection he with he; exact Json.noConfusion he
    | obj fs => right; refine ⟨rfl, fun es he => ?_⟩; injection he with he; exact Json.noConfusion he

/-- The spec's scenario document `{"entries":[{"id":1,"name":"x"}]}`. -/
def exampleDocC4 : Json :=
  Json.obj [("entries",
    Json.arr [Json.obj [("id", Json.num 1), ("name", Json.str "x")]])]

/-- **C4**: `import` always returns a boolean (the model is total — every
`throw` inside the `try` is caught); it returns `true` exactly when the
parsed document has an `entries` array with at least one structurally
valid entry; on `true` the previous store content plays no role in the
result (full replacement by entries derived from the valid list); on
`false` — including on the scenario document missing `sprite`, `types`
and `dateAdded` — the store is unchanged. -/
theorem claim_C4 :
    (∀ (parsed : Option Json) (s : Store) (now : String),
      ((importParsed s parsed now).1 = true ↔
        ∃ doc es, parsed = some doc ∧
          jsonField doc "entries" = some (Json.arr es) ∧
          es.filter isValidEntry ≠ []) ∧
      ((importParsed s parsed now).1 = false →
        importParsed s parsed now = (false, s)) ∧
      ((importParsed s parsed now).1 = true →
        (importParsed s parsed now).2 = (importParsed [] parsed now).2 ∧
        ∀ e ∈ mapValues (importParsed s parsed now).2,
          ∃ doc es j, parsed = some doc ∧
            jsonField doc "entries" = some (Json.arr es) ∧
            j ∈ es.filter isValidEntry ∧ e = entryOfJson j now)) ∧
    (∀ (s : Store) (now : String),
      importParsed s (some exampleDocC4) now = (false, s)) := by
  constructor
  · intro parsed s now
    cases parsed with
    | none =>
      refine ⟨?_, fun _ => rfl, ?_⟩
      · simp only [importParsed]
        constructor
        · intro h
          exact Bool.noConfusion h
        · rintro ⟨doc, es, he, -, -⟩
          exact Option.noConfusion he
      · intro h
        exact absurd h (by simp [importParsed])
    | some doc =>
      rcases importJson_spec doc s now with ⟨es, hf, hne, heq⟩ | ⟨heq, hempty⟩
      · have heq0 : importJson [] doc now =
            (true, (es.filter isValidEntry).foldl (importSetStep now) []) := by
          rcases importJson_spec doc ([] : Store) now with ⟨es', hf', hne', heq'⟩ | ⟨-, hempty'⟩
          · rw [hf] at hf'
            injection hf' with hf'
            injection hf' with hf'
            rw [← hf'] at heq'
            exact heq'
          · exact absurd (hempty' es hf) hne
        refine ⟨?_, ?_, ?_⟩
        · simp only [importParsed, heq]
          exact ⟨fun _ => ⟨doc, es, rfl, hf, hne⟩, fun _ => trivial⟩
        · intro h
          simp only [importParsed, heq] at h
          exact Bool.noConfusion h
        · intro _
          constructor
          · simp only [importParsed, heq, heq0]
          · intro e he
            simp only [importParsed, heq] at he
            rcases mem_values_importFold (es.filter isValidEntry) now [] e he with h0 | ⟨j, hj, hej⟩
            · exact absurd h0 (List.not_mem_nil e)
            · exact ⟨doc, es, j, rfl, hf, hj, hej⟩
      · refine ⟨?_, fun _ => by simpa [importParsed] using heq, ?_⟩
        · simp only [importParsed, heq]
          constructor
          · intro h
            exact Bool.noConfusion h
          · rintro ⟨doc', es', hd, hf', hne'⟩
            injection hd with hd
            rw [← hd] at hf'
            exact absurd (hempty es' hf') hne'
        · intro h
          simp only [importParsed, heq] at h
          exact Bool.noConfusion h
  · intro s now
    rcases importJson_spec exampleDocC4 s now with ⟨es, hf, hne, -⟩ | ⟨heq, -⟩
    · have : es = [Json.obj [("id", Json.num 1), ("name", Json.str "x")]] := by
        have hh : jsonField exampleDocC4 "entries" =
            some (Json.arr [Json.obj [("id", Json.num 1), ("name", Json.str "x")]]) := rfl
        rw [hh] at hf
        injection hf with hf
        injection hf with hf
        exact hf.symm
      rw [this] at hne
      exact absurd rfl hne
    · exact heq

/-- Witness for C4: importing a valid two-entry document over an occupied
store succeeds with the occupant discarded, and the scenario document is
rejected leaving the store as it was. -/
theorem claim_C4_witness :
    (importParsed [((5 : ℚ), ⟨5, "old", "s", [], "t"⟩)] (some (bulkDoc 2)) "T").1
      = true ∧
    (importParsed [((5 : ℚ), ⟨5, "old", "s", [], "t"⟩)] (some (bulkDoc 2)) "T").2
      = (importParsed [] (some (bulkDoc 2)) "T").2 ∧
    importParsed [((5 : ℚ), ⟨5, "old", "s", [], "t"⟩)] (some exampleDocC4) "T"
      = (false, [((5 : ℚ), ⟨5, "old", "s", [], "t"⟩)]) := by
  have htrue :=
    (claim_C4.1 (some (bulkDoc 2)) [((5 : ℚ), ⟨5, "old", "s", [], "t"⟩)] "T").1.mpr
      ⟨bulkDoc 2, (List.range 2).map (fun i => bulkEntry i), rfl, rfl,
        List.cons_ne_nil _ _⟩
  exact ⟨htrue,
    ((claim_C4.1 (some (bulkDoc 2)) [((5 : ℚ), ⟨5, "old", "s", [], "t"⟩)] "T").2.2
      htrue).1,
    claim_C4.2 [((5 : ℚ), ⟨5, "old", "s", [], "t"⟩)] "T"⟩

/-- **C9**: when the surviving valid entries of an import document contain
several entries with the same id, the import succeeds and keeps exactly
one entry per distinct id — the last occurrence in document order — so the
store size is the number of distinct ids among the valid entries. -/
theorem claim_C9 :
    ∀ (doc : Json) (es : List Json) (s : Store) (now : String),
      jsonField doc "entries" = some (Json.arr es) →
      es.filter isValidEntry ≠ [] →
      (importJson s doc now).1 = true ∧
      (keys (importJson s doc now).2).Nodup ∧
      mapSize (importJson s doc now).2 =
        ((es.filter isValidEntry).map entryIdOf).dedup.length ∧
      (∀ q : ℚ, mapGet (importJson s doc now).2 q =
        (match ((es.filter isValidEntry).filter
            (fun j => entryIdOf j == q)).getLast? with
         | some j => some (entryOfJson j now)
         | none => none)) := by
  intro doc es s now hf hne
  rcases importJson_spec doc s now with ⟨es', hf', hne', heq⟩ | ⟨-, hempty⟩
  · rw [hf] at hf'
    injection hf' with hf'
    injection hf' with hf'
    subst hf'
    rw [heq]
    have hget : ∀ q : ℚ,
        mapGet ((es.filter isValidEntry).foldl (importSetStep now) []) q =
          (match ((es.filter isValidEntry).filter
              (fun j => entryIdOf j == q)).getLast? with
           | some j => some (entryOfJson j now)
           | none => none) := by
      intro q
      rw [mapGet_importFold (es.filter isValidEntry) now [] q]
      cases hg : ((es.filter isValidEntry).filter
          (fun j => entryIdOf j == q)).getLast? <;> simp only [hg] <;> rfl
    have hnodup : (keys ((es.filter isValidEntry).foldl (importSetStep now) [])).Nodup :=
      nodup_keys_importFold _ now [] List.nodup_nil
    refine ⟨rfl, hnodup, ?_, hget⟩
    have hmem : ∀ q : ℚ,
        q ∈ keys ((es.filter isValidEntry).foldl (importSetStep now) []) ↔
          q ∈ ((es.filter isValidEntry).map entryIdOf).dedup := by
      intro q
      rw [← mapHas_iff_mem_keys, mapHas_eq_isSome, hget q, List.mem_dedup,
        List.mem_map]
      cases hg : ((es.filter isValidEntry).filter
          (fun j => entryIdOf j == q)).getLast? with
      | none =>
        simp only [Option.isSome_none]
        constructor
        · intro h
          exact Bool.noConfusion h
        · rintro ⟨j, hj, hjq⟩
          have : (es.filter isValidEntry).filter (fun j' => entryIdOf j' == q) ≠ [] := by
            intro hnil
            have := List.filter_eq_nil_iff.mp hnil j hj
            simp [hjq] at this
          rw [← List.getLast?_isSome, hg] at this
          exact Bool.noConfusion this
      | some j =>
        refine ⟨fun _ => ?_, fun _ => rfl⟩
        have hjmem : j ∈ (es.filter isValidEntry).filter (fun j' => entryIdOf j' == q) := by
          have hx : j ∈ ((es.filter isValidEntry).filter
              (fun j' => entryIdOf j' == q)).getLast? := by
            rw [hg]
            rfl
          obtain ⟨hne2, hj'⟩ := List.mem_getLast?_eq_getLast hx
          rw [hj']
          exact List.getLast_mem hne2
        have h1 := List.mem_filter.mp hjmem
        exact ⟨j, h1.1, by simpa using h1.2⟩
    have hlen := length_eq_of_nodup_of_mem_iff hnodup
      (List.nodup_dedup _) hmem
    simpa [mapSize, keys] using hlen
  · exact absurd (hempty es hf) hne

/-- A three-entry document whose first two valid entries share id 1. -/
def dupDoc : Json :=
  Json.obj [("entries", Json.arr [
    Json.obj [("id", Json.num 1), ("name", Json.str "first"),
      ("sprite", Json.str "s"), ("types", Json.arr []),
      ("dateAdded", Json.str "D1")],
    Json.obj [("id", Json.num 1), ("name", Json.str "second"),
      ("sprite", Json.str "s"), ("types", Json.arr []),
      ("dateAdded", Json.str "D2")],
    Json.obj [("id", Json.num 2), ("name", Json.str "third"),
      ("sprite", Json.str "s"), ("types", Json.arr []),
      ("dateAdded", Json.str "D3")]]) ]

/-- Witness for C9 on a document with duplicated id 1: two entries survive,
and id 1 maps to the later occurrence (`"second"`). -/
theorem claim_C9_witness :
    (importJson [] dupDoc "T").1 = true ∧
    mapSize (importJson [] dupDoc "T").2 = 2 ∧
    mapGet (importJson [] dupDoc "T").2 1 =
      some ⟨1, "second", "s", [], "D2"⟩ := by
  obtain ⟨h1, -, h3, h4⟩ := claim_C9 dupDoc
    [Json.obj [("id", Json.num 1), ("name", Json.str "first"),
      ("sprite", Json.str "s"), ("types", Json.arr []),
      ("dateAdded", Json.str "D1")],
     Json.obj [("id", Json.num 1), ("name", Json.str "second"),
      ("sprite", Json.str "s"), ("types", Json.arr []),
      ("dateAdded", Json.str "D2")],
     Json.obj [("id", Json.num 2), ("name", Json.str "third"),
      ("sprite", Json.str "s"), ("types", Json.arr []),
      ("dateAdded", Json.str "D3")]] [] "T" rfl (List.cons_ne_nil _ _)
  exact ⟨h1, h3.trans (by decide), (h4 1).trans rfl⟩

/-! ### Round trip: `import(export())` -/

theorem isValidEntry_entryToJson (e : PokedeckEntry) :
    isValidEntry (entryToJson e) = true := rfl

theorem entryOfJson_entryToJson (e : PokedeckEntry) (now : String)
    (h : e.dateAdded ≠ "") : entryOfJson (entryToJson e) now = e := by
  unfold entryOfJson
  have hid : entryIdOf (entryToJson e) = e.id := rfl
  have hname : entryStrOf (entryToJson e) "name" = e.name := rfl
  have hsprite : entryStrOf (entryToJson e) "sprite" = e.sprite := rfl
  have htypes : entryTypesOf (entryToJson e) = e.types := rfl
  have hdate : entryStrOf (entryToJson e) "dateAdded" = e.dateAdded := rfl
  rw [hid, hname, hsprite, htypes, hdate, if_neg h]

theorem mapHas_append_single (m : Store) (k q : ℚ) (v : PokedeckEntry) :
    mapHas (m ++ [(k, v)]) q = (mapHas m q || (k == q)) := by
  simp [mapHas, List.any_append]

/-- Folding `Map.set` over entries with pairwise-distinct ids, none of
which is already present, appends them in order. -/
theorem foldSet_of_nodup (L : List PokedeckEntry) :
    ∀ m0 : Store, (∀ e ∈ L, mapHas m0 e.id = false) →
      (L.map PokedeckEntry.id).Nodup →
      L.foldl (fun m e => mapSet m e.id e) m0 =
        m0 ++ L.map (fun e => (e.id, e)) := by
  induction L with
  | nil => intro m0 _ _; simp
  | cons e rest ih =>
    intro m0 hnot hnodup
    rw [List.foldl_cons]
    have hset : mapSet m0 e.id e = m0 ++ [(e.id, e)] := by
      unfold mapSet
      rw [if_neg (by simp [hnot e (List.mem_cons_self e rest)])]
    rw [hset]
    rw [List.map_cons, List.nodup_cons] at hnodup
    have hnot' : ∀ e' ∈ rest, mapHas (m0 ++ [(e.id, e)]) e'.id = false := by
      intro e' he'
      rw [mapHas_append_single]
      have h1 : mapHas m0 e'.id = false := hnot e' (List.mem_cons_of_mem e he')
      have h2 : (e.id == e'.id) = false := by
        simp only [beq_eq_false_iff_ne, ne_eq]
        intro hh
        apply hnodup.1
        rw [hh]
        exact List.mem_map_of_mem PokedeckEntry.id he'

      rw [h1, h2]
      rfl
    rw [ih (m0 ++ [(e.id, e)]) hnot' hnodup.2, List.map_cons, List.append_assoc]
    rfl

/-- **C5**: on any non-empty store (with the `Map`'s structural invariants:
unique keys equal to the entry ids, and the non-empty `dateAdded` strings
every reachable entry carries), importing the export document succeeds and
the resulting entry set equals the store's entry set, entry for entry, on
all five fields. -/
theorem claim_C5 :
    ∀ (parseDate : String → Int) (s : Store) (now2 now3 : String),
      s ≠ [] →
      (keys s).Nodup →
      KeyConsistent s →
      (∀ p ∈ s, p.2.dateAdded ≠ "") →
      (importJson s (exportJson parseDate s now2) now3).1 = true ∧
      (∀ e : PokedeckEntry,
        e ∈ mapValues (importJson s (exportJson parseDate s now2) now3).2 ↔
          e ∈ mapValues s) := by
  intro parseDate s now2 now3 hne hnodup hcons hdate
  have hperm : List.Perm (getAll parseDate s) (mapValues s) :=
    jsSort_perm _ _
  have hdateAll : ∀ e ∈ getAll parseDate s, e.dateAdded ≠ "" := by
    intro e he
    have : e ∈ mapValues s := hperm.mem_iff.mp he
    obtain ⟨p, hp, hpe⟩ := List.mem_map.mp this
    rw [← hpe]
    exact hdate p hp
  have hfield : jsonField (exportJson parseDate s now2) "entries" =
      some (Json.arr ((getAll parseDate s).map entryToJson)) := rfl
  have hvalid : ((getAll parseDate s).map entryToJson).filter isValidEntry =
      (getAll parseDate s).map entryToJson := by
    rw [List.filter_eq_self]
    intro j hj
    obtain ⟨e, -, hje⟩ := List.mem_map.mp hj
    rw [← hje]
    exact isValidEntry_entryToJson e
  have hnonempty : (getAll parseDate s).map entryToJson ≠ [] := by
    intro hnil
    have h0 := hperm.length_eq
    rw [show getAll parseDate s = [] from List.map_eq_nil.mp hnil] at h0
    have : mapValues s = [] := List.eq_nil_of_length_eq_zero h0.symm
    exact hne (List.map_eq_nil.mp this)
  rcases importJson_spec (exportJson parseDate s now2) s now3 with
    ⟨es, hf, -, heq⟩ | ⟨-, hempty⟩
  · rw [hfield] at hf
    injection hf with hf
    injection hf with hf
    subst hf
    rw [heq]
    have hfold : (((getAll parseDate s).map entryToJson).filter
        isValidEntry).foldl (importSetStep now3) [] =
        (getAll parseDate s).map (fun e => (e.id, e)) := by
      rw [hvalid]
      have hstep : ∀ (m : Store), ∀ e ∈ getAll parseDate s,
          importSetStep now3 m (entryToJson e) = mapSet m e.id e := by
        intro m e he
        unfold importSetStep
        rw [entryOfJson_entryToJson e now3 (hdateAll e he)]
        rfl
      rw [List.foldl_map]
      rw [List.foldl_ext (fun m e => importSetStep now3 m (entryToJson e))
        (fun m e => mapSet m e.id e) [] (fun m e he => hstep m e he)]
      have hidsnodup : ((getAll parseDate s).map PokedeckEntry.id).Nodup := by
        have h1 : List.Perm ((getAll parseDate s).map PokedeckEntry.id)
            ((mapValues s).map PokedeckEntry.id) := hperm.map _
        rw [h1.nodup_iff, ids_eq_keys hcons]
        exact hnodup
      exact foldSet_of_nodup (getAll parseDate s) [] (fun e _ => rfl) hidsnodup
    rw [hfold]
    refine ⟨rfl, ?_⟩
    intro e
    have hv : mapValues ((getAll parseDate s).map (fun e => (e.id, e))) =
        getAll parseDate s := by
      unfold mapValues
      rw [List.map_map]
      show List.map (fun e => e) (getAll parseDate s) = getAll parseDate s
      simp
    rw [hv]
    exact hperm.mem_iff
  · exact absurd (hempty _ hfield) (by rw [hvalid]; exact hnonempty)

/-- Witness for C5 at a concrete two-entry store. -/
theorem claim_C5_witness :
    (importJson
      [((1 : ℚ), ⟨1, "alpha", "sa", [Json.str "fire"], "D1"⟩),
       ((2 : ℚ), ⟨2, "beta", "sb", [], "D2"⟩)]
      (exportJson (fun _ => 0)
        [((1 : ℚ), ⟨1, "alpha", "sa", [Json.str "fire"], "D1"⟩),
         ((2 : ℚ), ⟨2, "beta", "sb", [], "D2"⟩)] "E") "T").1 = true ∧
    ((⟨1, "alpha", "sa", [Json.str "fire"], "D1"⟩ : PokedeckEntry) ∈
      mapValues (importJson
        [((1 : ℚ), ⟨1, "alpha", "sa", [Json.str "fire"], "D1"⟩),
         ((2 : ℚ), ⟨2, "beta", "sb", [], "D2"⟩)]
        (exportJson (fun _ => 0)
          [((1 : ℚ), ⟨1, "alpha", "sa", [Json.str "fire"], "D1"⟩),
           ((2 : ℚ), ⟨2, "beta", "sb", [], "D2"⟩)] "E") "T").2 ↔
      (⟨1, "alpha", "sa", [Json.str "fire"], "D1"⟩ : PokedeckEntry) ∈
        mapValues
          [((1 : ℚ), ⟨1, "alpha", "sa", [Json.str "fire"], "D1"⟩),
           ((2 : ℚ), ⟨2, "beta", "sb", [], "D2"⟩)]) := by
  obtain ⟨h1, h2⟩ := claim_C5 (fun _ => 0)
    [((1 : ℚ), ⟨1, "alpha", "sa", [Json.str "fire"], "D1"⟩),
     ((2 : ℚ), ⟨2, "beta", "sb", [], "D2"⟩)] "E" "T"
    (List.cons_ne_nil _ _) (by decide)
    (by unfold KeyConsistent; decide)
    (by decide)
  exact ⟨h1, h2 _⟩

/-! ### Comparator properties of `lexCmp` and `sortCmp` -/

theorem lexCmp_self : ∀ x : List Char, lexCmp x x = 0 := by
  intro x
  induction x with
  | nil => rfl
  | cons a as ih => simp [lexCmp, ih]

theorem lexCmp_anti : ∀ x y : List Char, lexCmp x y < 0 ↔ 0 < lexCmp y x := by
  intro x
  induction x with
  | nil =>
    intro y
    cases y <;> simp [lexCmp]
  | cons a as ih =>
    intro y
    cases y with
    | nil => simp [lexCmp]
    | cons b bs =>
      simp only [lexCmp]
      by_cases h1 : a.toNat < b.toNat
      · rw [if_pos h1, if_neg (by omega), if_pos h1]
        omega
      · by_cases h2 : b.toNat < a.toNat
        · rw [if_neg h1, if_pos h2, if_pos h2]
          omega
        · rw [if_neg h1, if_neg h2, if_neg h2, if_neg h1]
          exact ih bs

theorem lexCmp_nil_le (z : List Char) : lexCmp [] z ≤ 0 := by
  cases z <;> simp [lexCmp]

theorem lexCmp_trans :
    ∀ x y z : List Char, lexCmp x y ≤ 0 → lexCmp y z ≤ 0 → lexCmp x z ≤ 0 := by
  intro x
  induction x with
  | nil =>
    intro y z _ _
    exact lexCmp_nil_le z
  | cons a as ih =>
    intro y z hxy hyz
    cases y with
    | nil => simp [lexCmp] at hxy
    | cons b bs =>
      cases z with
      | nil => simp [lexCmp] at hyz
      | cons c cs =>
        simp only [lexCmp] at hxy hyz ⊢
        split_ifs at hxy hyz ⊢ <;> try omega
        all_goals exact ih bs cs hxy hyz

/-- Equality of the sort key read by `sortingFunctions[sk]`. -/
def keyEqB : SortKey → Pokemon → Pokemon → Bool
  | .id, p, r => p.id == r.id
  | .name, p, r => p.name == r.name
  | .height, p, r => p.height == r.height
  | .weight, p, r => p.weight == r.weight

theorem sortCmp_anti (sk : SortKey) (ord : SortDir) :
    ∀ a b, sortCmp sk ord a b < 0 ↔ 0 < sortCmp sk ord b a := by
  intro a b
  cases sk <;> cases ord <;> simp only [sortCmp] <;>
    first
      | omega
      | exact lexCmp_anti _ _

theorem sortCmp_trans (sk : SortKey) (ord : SortDir) :
    ∀ a b c, sortCmp sk ord a b ≤ 0 → sortCmp sk ord b c ≤ 0 →
      sortCmp sk ord a c ≤ 0 := by
  intro a b c
  cases sk <;> cases ord <;> simp only [sortCmp] <;>
    first
      | omega
      | exact fun h1 h2 => lexCmp_trans _ _ _ h1 h2
      | exact fun h1 h2 => lexCmp_trans _ _ _ h2 h1

theorem sortCmp_tie (sk : SortKey) (ord : SortDir) (r : Pokemon) :
    ∀ a b, keyEqB sk a r = true → keyEqB sk b r = true →
      sortCmp sk ord a b = 0 := by
  intro a b ha hb
  cases sk <;> cases ord <;>
    simp only [keyEqB, beq_iff_eq] at ha hb <;>
    simp only [sortCmp] <;>
    first
      | omega
      | (rw [ha, hb]; exact lexCmp_self _)

/-! ### Stage-by-stage decomposition of `filterPokemon` -/

/-- Stage 1 predicate: free-text match (vacuously true when the query is
absent or trims to empty). -/
def textPred (q : Option String) (p : Pokemon) : Bool :=
  match q with
  | some qq => if trimStr qq ≠ "" then searchText p (trimStr qq) else true
  | none => true

/-- Stage 2 predicate: exact type-tag equality (vacuous when absent or
empty). -/
def typePred (f : SearchFilters) (p : Pokemon) : Bool :=
  match f.type with
  | some t => if t ≠ "" then p.types.any (fun ty => ty.type.name == t) else true
  | none => true

/-- Stage 3 predicate: `minId ≤ id`. -/
def minPred (f : SearchFilters) (p : Pokemon) : Bool :=
  match f.minId with
  | some m => decide (m ≤ p.id)
  | none => true

/-- Stage 4 predicate: `id ≤ maxId`. -/
def maxPred (f : SearchFilters) (p : Pokemon) : Bool :=
  match f.maxId with
  | some m => decide (p.id ≤ m)
  | none => true

/-- Stage 5 predicate: preset membership (vacuous when absent or
unrecognized). -/
def presetPred (f : SearchFilters) (p : Pokemon) : Bool :=
  match f.preset with
  | some pr =>
    match presetIds pr with
    | some ids => ids.contains p.id
    | none => true
  | none => true

theorem activePred_eq (f : SearchFilters) (q : Option String) (p : Pokemon) :
    activePred f q p =
      ((((textPred q p && typePred f p) && minPred f p) && maxPred f p) &&
        presetPred f p) := rfl

theorem stageText_eq (q : Option String) (r : List Pokemon) :
    (match q with
     | some qq =>
       if trimStr qq ≠ "" then r.filter (fun p => searchText p (trimStr qq))
       else r
     | none => r) = r.filter (textPred q) := by
  cases q with
  | none =>
    show r = r.filter (textPred none)
    symm
    rw [List.filter_eq_self]
    intro p _
    rfl
  | some qq =>
    show (if trimStr qq ≠ "" then r.filter (fun p => searchText p (trimStr qq))
      else r) = r.filter (textPred (some qq))
    by_cases hq : trimStr qq ≠ ""
    · rw [if_pos hq]
      apply List.filter_congr
      intro p _
      simp [textPred, hq]
    · rw [if_neg hq]
      symm
      rw [List.filter_eq_self]
      intro p _
      simp [textPred, hq]

theorem stageType_eq (f : SearchFilters) (r : List Pokemon) :
    (match f.type with
     | some t =>
       if t ≠ "" then r.filter (fun p => p.types.any (fun ty => ty.type.name == t))
       else r
     | none => r) = r.filter (typePred f) := by
  cases hft : f.type with
  | none =>
    symm
    rw [List.filter_eq_self]
    intro p _
    simp [typePred, hft]
  | some t =>
    show (if t ≠ "" then
        r.filter (fun p => p.types.any (fun ty => ty.type.name == t))
      else r) = r.filter (typePred f)
    by_cases ht : t ≠ ""
    · rw [if_pos ht]
      apply List.filter_congr
      intro p _
      simp [typePred, hft, ht]
    · rw [if_neg ht]
      symm
      rw [List.filter_eq_self]
      intro p _
      simp [typePred, hft, ht]

theorem stageMin_eq (f : SearchFilters) (r : List Pokemon) :
    (match f.minId with
     | some m => r.filter (fun p => m ≤ p.id)
     | none => r) = r.filter (minPred f) := by
  cases hfm : f.minId with
  | none =>
    symm
    rw [List.filter_eq_self]
    intro p _
    simp [minPred, hfm]
  | some m =>
    apply List.filter_congr
    intro p _
    simp [minPred, hfm]

theorem stageMax_eq (f : SearchFilters) (r : List Pokemon) :
    (match f.maxId with
     | some m => r.filter (fun p => p.id ≤ m)
     | none => r) = r.filter (maxPred f) := by
  cases hfm : f.maxId with
  | none =>
    symm
    rw [List.filter_eq_self]
    intro p _
    simp [maxPred, hfm]
  | some m =>
    apply List.filter_congr
    intro p _
    simp [maxPred, hfm]

theorem stagePreset_eq (f : SearchFilters) (r : List Pokemon) :
    (match f.preset with
     | some pr =>
       match presetIds pr with
       | some ids => r.filter (fun p => ids.contains p.id)
       | none => r
     | none => r) = r.filter (presetPred f) := by
  cases hfp : f.preset with
  | none =>
    symm
    rw [List.filter_eq_self]
    intro p _
    simp [presetPred, hfp]
  | some pr =>
    show (match presetIds pr with
      | some ids => r.filter (fun p => ids.contains p.id)
      | none => r) = r.filter (presetPred f)
    cases hpi : presetIds pr with
    | none =>
      symm
      rw [List.filter_eq_self]
      intro p _
      simp [presetPred, hfp, hpi]
    | some ids =>
      apply List.filter_congr
      intro p _
      simp [presetPred, hfp, hpi]

/-- The pipeline is the filter by the conjunction of the five stage
predicates, followed by the optional sort. -/
theorem filterPokemon_eq (l : List Pokemon) (f : SearchFilters)
    (q : Option String) :
    filterPokemon l f q =
      (match f.sortBy with
       | some sk =>
         jsSort (sortCmp sk (f.sortOrder.getD .asc)) (l.filter (activePred f q))
       | none => l.filter (activePred f q)) := by
  simp only [filterPokemon]
  rw [stageText_eq, stageType_eq, stageMin_eq, stageMax_eq, stagePreset_eq,
    List.filter_filter, List.filter_filter, List.filter_filter,
    List.filter_filter]
  have hpred : ∀ x ∈ l, (presetPred f x && maxPred f x && minPred f x &&
      typePred f x && textPred q x) = activePred f q x := by
    intro p _
    rw [activePred_eq]
    cases h1 : textPred q p <;> cases h2 : typePred f p <;>
      cases h3 : minPred f p <;> cases h4 : maxPred f p <;>
      cases h5 : presetPred f p <;> rfl
  cases hsb : f.sortBy with
  | none => exact List.filter_congr hpred
  | some sk => exact congrArg (jsSort _) (List.filter_congr hpred)

/-- **C6**: the query engine returns exactly the records satisfying the
conjunction of the active predicates (as a permutation in general, and in
the original input order whenever no sort key is given), and on the spec's
scenario — three records, `type = "fire"`, sort by name ascending — it
returns `[alpha, gamma]` in that order. -/
theorem claim_C6 :
    (∀ (l : List Pokemon) (f : SearchFilters) (q : Option String),
      (f.sortBy = none → filterPokemon l f q = l.filter (activePred f q)) ∧
      List.Perm (filterPokemon l f q) (l.filter (activePred f q))) ∧
    filterPokemon
      [⟨1, "alpha", 7, 69, [⟨1, ⟨"fire", "u"⟩⟩]⟩,
       ⟨2, "beta", 10, 130, [⟨1, ⟨"water", "u"⟩⟩]⟩,
       ⟨3, "gamma", 10, 100, [⟨1, ⟨"fire", "u"⟩⟩]⟩]
      { type := some "fire", sortBy := some SortKey.name,
        sortOrder := some SortDir.asc }
      none =
      [⟨1, "alpha", 7, 69, [⟨1, ⟨"fire", "u"⟩⟩]⟩,
       ⟨3, "gamma", 10, 100, [⟨1, ⟨"fire", "u"⟩⟩]⟩] := by
  constructor
  · intro l f q
    constructor
    · intro hsb
      rw [filterPokemon_eq, hsb]
    · rw [filterPokemon_eq]
      cases hsb : f.sortBy with
      | none => exact List.Perm.refl _
      | some sk => exact jsSort_perm _ _
  · rfl

/-- Witness for C6: with no sort key the output is literally the filtered
list in input order. -/
theorem claim_C6_witness :
    filterPokemon
      [⟨9, "squirtle", 5, 90, [⟨1, ⟨"water", "u"⟩⟩]⟩,
       ⟨4, "charmander", 6, 85, [⟨1, ⟨"fire", "u"⟩⟩]⟩]
      { minId := some 5 } none =
      List.filter
        (activePred { minId := some 5 } none)
        [⟨9, "squirtle", 5, 90, [⟨1, ⟨"water", "u"⟩⟩]⟩,
         ⟨4, "charmander", 6, 85, [⟨1, ⟨"fire", "u"⟩⟩]⟩] :=
  (claim_C6.1
    [⟨9, "squirtle", 5, 90, [⟨1, ⟨"water", "u"⟩⟩]⟩,
     ⟨4, "charmander", 6, 85, [⟨1, ⟨"fire", "u"⟩⟩]⟩]
    { minId := some 5 } none).1 rfl

/-- **C7**: for every sort key and direction, records whose sort keys are
equal appear in the engine's output in the same relative order they had
among the surviving records of the input list (sorting is stable). -/
theorem claim_C7 :
    ∀ (l : List Pokemon) (f : SearchFilters) (q : Option String)
      (sk : SortKey) (r : Pokemon),
      f.sortBy = some sk →
      (filterPokemon l f q).filter (fun p => keyEqB sk p r) =
        (l.filter (activePred f q)).filter (fun p => keyEqB sk p r) := by
  intro l f q sk r hsb
  rw [filterPokemon_eq, hsb]
  exact jsSort_stable (sortCmp sk (f.sortOrder.getD SortDir.asc))
    (sortCmp_anti sk _) (sortCmp_trans sk _)
    (fun p => keyEqB sk p r)
    (fun a b ha hb => sortCmp_tie sk _ r a b ha hb)
    (l.filter (activePred f q))

/-- Witness for C7: two records tied on `height`, sorted descending, keep
their input order. -/
theorem claim_C7_witness :
    (filterPokemon
      [⟨1, "aaa", 10, 50, []⟩, ⟨2, "bbb", 10, 60, []⟩]
      { sortBy := some SortKey.height, sortOrder := some SortDir.desc }
      none).filter (fun p => keyEqB SortKey.height p ⟨1, "aaa", 10, 50, []⟩) =
    (List.filter
      (activePred
        { sortBy := some SortKey.height, sortOrder := some SortDir.desc } none)
      [⟨1, "aaa", 10, 50, []⟩, ⟨2, "bbb", 10, 60, []⟩]).filter
        (fun p => keyEqB SortKey.height p ⟨1, "aaa", 10, 50, []⟩) :=
  claim_C7 [⟨1, "aaa", 10, 50, []⟩, ⟨2, "bbb", 10, 60, []⟩]
    { sortBy := some SortKey.height, sortOrder := some SortDir.desc }
    none SortKey.height ⟨1, "aaa", 10, 50, []⟩ rfl

/-! ### Claims C10 (async export) and C8 (listeners) -/

theorem processEntriesLoop_doc (entries : List PokedeckEntry) (stats : Stats)
    (now : String) :
    ∀ fuel processed, entries.length - processed ≤ fuel →
      (processEntriesLoop entries stats now processed).2 =
        { version := "1.0", exportDate := now, entries := entries,
          stats := stats } := by
  intro fuel
  induction fuel with
  | zero =>
    intro processed h
    rw [processEntriesLoop]
    have hnot : ¬(min (processed + 50) entries.length < entries.length) := by
      omega
    rw [dif_neg hnot]
  | succ n ih =>
    intro processed h
    rw [processEntriesLoop]
    by_cases hlt : min (processed + 50) entries.length < entries.length
    · rw [dif_pos hlt]
      exact ih (min (processed + 50) entries.length) (by omega)
    · rw [dif_neg hlt]

/-- **C10**: the chunked asynchronous export resolves with exactly the
document the synchronous `export` builds on the same state at the same
time — same version, same entries in the same order, same stats; the
batching loop only produces progress callbacks. -/
theorem claim_C10 :
    ∀ (parseDate : String → Int) (s : Store) (now : String),
      (exportAsyncRun parseDate s now).2 = exportDoc parseDate s now := by
  intro parseDate s now
  unfold exportAsyncRun exportDoc
  exact processEntriesLoop_doc (getAll parseDate s) (getStats parseDate s) now
    ((getAll parseDate s).length) 0 (by omega)

theorem runListeners_ok_prefix (entries : List PokedeckEntry)
    (f : Listener → String) :
    ∀ (pre : List Listener) (l : Listener) (post : List Listener) (msg : String),
      (∀ l' ∈ pre, l' entries = Except.ok (f l')) →
      l entries = Except.error msg →
      runListeners entries (pre ++ l :: post) = (pre.map f, some msg) := by
  intro pre
  induction pre with
  | nil =>
    intro l post msg _ herr
    simp only [List.nil_append, runListeners, herr, List.map_nil]
  | cons l0 rest ih =>
    intro l post msg hok herr
    have h0 : l0 entries = Except.ok (f l0) := hok l0 (List.mem_cons_self l0 rest)
    have hrec : runListeners entries (rest ++ l :: post) =
        (rest.map f, some msg) :=
      ih l post msg (fun l' hl' => hok l' (List.mem_cons_of_mem l0 hl')) herr
    simp [runListeners, h0]
    exact ⟨by rw [hrec], by rw [hrec]⟩

/-- **C8 (amended)**: `subscribe` only registers the listener — the first
invocation happens at the next successful mutation, not at subscription
time; after a successful insert all listeners up to (but not including)
the first throwing one are invoked, in registration order, with the full
entry list of the mutated store; a throwing listener stops the
notification loop, so listeners registered after it are not invoked, but
the exception is caught at the persistence boundary: the mutation's
return value and the store state are unaffected by anything a listener
does. -/
theorem claim_C8 :
    ∀ (parseDate : String → Int) (s : Store) (ls : List Listener)
      (p : AddInput) (now : String),
      (∀ l : Listener, subscribe ls l = ls ++ [l]) ∧
      (∀ r : Store, add s p now = Except.ok (true, r) →
        addNotify parseDate s ls p now =
          Except.ok (true, r, (runListeners (getAll parseDate r) ls).1)) ∧
      (add s p now = Except.ok (false, s) →
        addNotify parseDate s ls p now = Except.ok (false, s, [])) ∧
      (∀ (pre : List Listener) (l : Listener) (post : List Listener)
        (entries : List PokedeckEntry) (f : Listener → String) (msg : String),
        ls = pre ++ l :: post →
        (∀ l' ∈ pre, l' entries = Except.ok (f l')) →
        l entries = Except.error msg →
        runListeners entries ls = (pre.map f, some msg)) := by
  intro parseDate s ls p now
  refine ⟨fun l => rfl, ?_, ?_, ?_⟩
  · intro r hadd
    unfold addNotify
    rw [hadd]
    rfl
  · intro hadd
    unfold addNotify
    rw [hadd]
  · intro pre l post entries f msg hls hok herr
    rw [hls]
    exact runListeners_ok_prefix entries f pre l post msg hok herr

/-- **C8 counterexample**: with a throwing listener registered before a
well-behaved one, a successful `add` notifies nobody after the thrower —
the second listener's output is absent (the claim requires it to be
invoked) — although the insert itself and the store are unaffected. -/
theorem claim_C8_counterexample :
    addNotify (fun _ => 0) []
      [fun _ => Except.error "boom", fun es => Except.ok (natToStr es.length)]
      ⟨1, "bulba", "s", []⟩ "T" =
      Except.ok (true, [((1 : ℚ), ⟨1, "bulba", "s", [], "T"⟩)], []) ∧
    (fun es => Except.ok (natToStr es.length) : Listener)
      (getAll (fun _ => 0) [((1 : ℚ), ⟨1, "bulba", "s", [], "T"⟩)]) =
      Except.ok "1" :=
  ⟨rfl, rfl⟩

/-- Witness for C8 at concrete listeners: a successful add notifies the
single well-behaved listener, and with a thrower in second position the
loop stops right after the first listener's output. -/
theorem claim_C8_witness :
    addNotify (fun _ => 0) [] [fun es => Except.ok (natToStr es.length)]
      ⟨1, "bulba", "s", []⟩ "T" =
      Except.ok (true, [((1 : ℚ), ⟨1, "bulba", "s", [], "T"⟩)],
        (runListeners
          (getAll (fun _ => 0) [((1 : ℚ), ⟨1, "bulba", "s", [], "T"⟩)])
          [fun es => Except.ok (natToStr es.length)]).1) ∧
    runListeners (getAll (fun _ => 0) [])
      ([fun es => Except.ok (natToStr es.length)] ++
        (fun _ => Except.error "boom") :: []) =
      (([fun es => Except.ok (natToStr es.length)] :
        List Listener).map (fun _ => "0"), some "boom") :=
  ⟨((claim_C8 (fun _ => 0) [] [fun es => Except.ok (natToStr es.length)]
      ⟨1, "bulba", "s", []⟩ "T").2.1 _ rfl),
   ((claim_C8 (fun _ => 0) []
      ([fun es => Except.ok (natToStr es.length)] ++
        (fun _ => Except.error "boom") :: [])
      ⟨1, "bulba", "s", []⟩ "T").2.2.2
      [fun es => Except.ok (natToStr es.length)]
      (fun _ => Except.error "boom") [] (getAll (fun _ => 0) [])
      (fun _ => "0") "boom" rfl
      (fun l' hl' => by rw [List.mem_singleton.mp hl']; rfl) rfl)⟩
